import Mathlib

set_option linter.unusedVariables false
set_option linter.unnecessarySimpa false
set_option linter.unreachableTactic false
set_option linter.unusedTactic false

namespace Fend

/-!
Verification of the expression parser in `src/core/src/parser.rs` of the
fend repository.

The parser is embedded shallowly: every function of `parser.rs` becomes a
Lean function of the same name over the same token/AST data model.  Because
the Rust code uses unbounded recursion and `loop`s, each embedded function
takes an explicit `fuel : Nat` argument that is decremented on every call;
`none` signals fuel exhaustion.  The theorem `suff_all` below proves that
the fuel bound `parse_fuel input = 16 * input.length + 16` used by the
top-level `parse_tokens` is always sufficient, so the fuel layer is
invisible at the top level and the embedded parser is total, exactly like
the Rust parser.
-/

/-- Modelled from the spec: the `Symbol` tag enumeration of the token model
(section 3 of the spec; the lexer source is not part of the analysed tree).
Constructor names follow the uses in `parser.rs`
(`Symbol::OpenParens`, `Symbol::Semicolon`, ...). -/
inductive Symbol where
  | OpenParens
  | CloseParens
  | Add
  | Sub
  | Mul
  | Div
  | Mod
  | Pow
  | Factorial
  | Backslash
  | Dot
  | Fn
  | Equals
  | Semicolon
  | UnitConversion
  | Of
deriving DecidableEq, Repr

/-- Modelled from the spec: an identifier as produced by the lexer.  The
parser only reads its name and whether it is flagged as a prefix unit
(`Ident::is_prefix_unit` in the sources outside `src/`, e.g. a currency
symbol such as `$`). -/
structure Identifier where
  name : String
  isPrefixUnit : Bool
deriving DecidableEq, Repr

/-- Modelled from the spec: the opaque literal values the parser constructs.
`parser.rs` only ever builds number literals (from `Token::Num`), string
literals, and the unit value `Value::from(())`, and only ever inspects the
`Num` constructor, so the numeric payload is abstracted to a `Nat`. -/
inductive Value where
  | Num (n : Nat)
  | String (s : String)
  | Unit
deriving DecidableEq, Repr

/-- Modelled from the spec: the token alphabet consumed by the parser
(section 3 of the spec). -/
inductive Token where
  | Num (n : Nat)
  | Ident (i : Identifier)
  | StringLiteral (s : String)
  | Symbol (s : Symbol)
  | Whitespace
deriving DecidableEq, Repr

/-- Modelled from the spec: the binary operators of `Expr::Bop`. -/
inductive Bop where
  | Plus
  | ImplicitPlus
  | Minus
  | Mul
  | Div
  | Mod
  | Pow
deriving DecidableEq, Repr

/-- Modelled from the spec: the AST produced by the parser (section 3 of
the spec, table of `Expr` variants). -/
inductive Expr where
  | Literal (v : Value)
  | Ident (i : Identifier)
  | Of (i : Identifier) (inner : Expr)
  | Parens (inner : Expr)
  | Fn (param : Identifier) (body : Expr)
  | Apply (lhs rhs : Expr)
  | ApplyFunctionCall (lhs rhs : Expr)
  | ApplyMul (lhs rhs : Expr)
  | Bop (op : Bop) (lhs rhs : Expr)
  | UnaryMinus (inner : Expr)
  | UnaryPlus (inner : Expr)
  | UnaryDiv (inner : Expr)
  | Factorial (inner : Expr)
  | Assign (name : Identifier) (rhs : Expr)
  | Statements (first rest : Expr)
  | As (value target : Expr)
deriving DecidableEq, Repr

/-- The `ParseError` enumeration of `parser.rs` (lines 6-22). -/
inductive ParseError where
  | ExpectedAToken
  | ExpectedToken (found expected : Symbol)
  | FoundInvalidTokenWhileExpecting (s : Symbol)
  | ExpectedANumber
  | ExpectedIdentifier
  | UnexpectedSymbol (s : Symbol)
  | InvalidApplyOperands
  | UnexpectedInput
  | ExpectedIdentifierAsArgument
  | ExpectedIdentifierInAssignment
  | ExpectedDotInLambda (e : ParseError)
  | InvalidMixedFraction
  | UnexpectedWhitespace
deriving DecidableEq, Repr

/-- Embeds `parse_token` (parser.rs lines 61-72): skips leading whitespace
when `skip_whitespace` is set, then returns the first token and the rest,
or `ExpectedAToken` when the input runs out. -/
def parse_token : List Token → Bool → Except ParseError (Token × List Token)
  | [], _ => .error .ExpectedAToken
  | .Whitespace :: rest, true => parse_token rest true
  | t :: rest, _ => .ok (t, rest)

/-- Embeds `parse_fixed_symbol` (parser.rs lines 74-85). -/
def parse_fixed_symbol (input : List Token) (symbol : Symbol) :
    Except ParseError (Unit × List Token) :=
  match parse_token input true with
  | .error e => .error e
  | .ok (.Symbol sym, remaining) =>
    if sym = symbol then .ok ((), remaining)
    else .error (.ExpectedToken sym symbol)
  | .ok (_, _) => .error (.FoundInvalidTokenWhileExpecting symbol)

/-- Embeds `parse_number` (parser.rs lines 87-92). -/
def parse_number (input : List Token) : Except ParseError (Expr × List Token) :=
  match parse_token input true with
  | .error e => .error e
  | .ok (.Num n, remaining) => .ok (.Literal (.Num n), remaining)
  | .ok (_, _) => .error .ExpectedANumber

/-- Embeds the `lhs` shape analysis at the start of `parse_mixed_fraction`
(parser.rs lines 222-243): returns the sign, the kept left operand and the
optional outer factor, or `InvalidMixedFraction` for ineligible shapes. -/
def mixed_fraction_lhs (lhs : Expr) : Except ParseError (Bool × Expr × Option Expr) :=
  match lhs with
  | .Literal (.Num _) => .ok (true, lhs, none)
  | .UnaryMinus x =>
    match x with
    | .Literal (.Num _) => .ok (false, lhs, none)
    | _ => .error .InvalidMixedFraction
  | .Bop .Mul a b =>
    match b with
    | .Literal (.Num _) => .ok (true, b, some a)
    | .UnaryMinus x =>
      match x with
      | .Literal (.Num _) => .ok (false, b, some a)
      | _ => .error .InvalidMixedFraction
    | _ => .error .InvalidMixedFraction
  | _ => .error .InvalidMixedFraction

/-- The shape condition of `parse_implicit_addition` (parser.rs lines
318-327): the left term must be an `ApplyMul` and the right term an
`ApplyMul`, an `ImplicitPlus`, or a bare literal. -/
def implicit_addition_combines (res rhs : Expr) : Bool :=
  match res, rhs with
  | .ApplyMul _ _, .ApplyMul _ _ => true
  | .ApplyMul _ _, .Bop .ImplicitPlus _ _ => true
  | .ApplyMul _ _, .Literal _ => true
  | _, _ => false

mutual

/-- Embeds `parse_ident` (parser.rs lines 94-106). -/
def parse_ident : Nat → List Token → Option (Except ParseError (Expr × List Token))
  | 0, _ => none
  | fuel + 1, input =>
    match parse_token input true with
    | .error e => some (.error e)
    | .ok (.Ident ident, remaining) =>
      match parse_fixed_symbol remaining .Of with
      | .ok ((), remaining2) =>
        match parse_parens_or_literal fuel remaining2 with
        | none => none
        | some (.error e) => some (.error e)
        | some (.ok (inner, remaining3)) => some (.ok (.Of ident inner, remaining3))
      | .error _ => some (.ok (.Ident ident, remaining))
    | .ok (_, _) => some (.error .ExpectedIdentifier)

/-- Embeds `parse_parens` (parser.rs lines 108-120), including the
deliberate tolerance for a missing closing parenthesis at end of input. -/
def parse_parens : Nat → List Token → Option (Except ParseError (Expr × List Token))
  | 0, _ => none
  | fuel + 1, input =>
    match parse_fixed_symbol input .OpenParens with
    | .error e => some (.error e)
    | .ok ((), input1) =>
      match parse_fixed_symbol input1 .CloseParens with
      | .ok ((), remaining) => some (.ok (.Literal .Unit, remaining))
      | .error _ =>
        match parse_statements fuel input1 with
        | none => none
        | some (.error e) => some (.error e)
        | some (.ok (inner, input2)) =>
          match input2 with
          | [] => some (.ok (.Parens inner, []))
          | _ :: _ =>
            match parse_fixed_symbol input2 .CloseParens with
            | .error e => some (.error e)
            | .ok ((), remaining) => some (.ok (.Parens inner, remaining))

/-- Embeds `parse_backslash_lambda` (parser.rs lines 122-133). -/
def parse_backslash_lambda : Nat → List Token → Option (Except ParseError (Expr × List Token))
  | 0, _ => none
  | fuel + 1, input =>
    match parse_fixed_symbol input .Backslash with
    | .error e => some (.error e)
    | .ok ((), input1) =>
      match parse_ident fuel input1 with
      | none => none
      | some (.error e) => some (.error e)
      | some (.ok (lhs, input2)) =>
        match lhs with
        | .Ident ident =>
          match parse_fixed_symbol input2 .Dot with
          | .error e => some (.error (.ExpectedDotInLambda e))
          | .ok ((), input3) =>
            match parse_function fuel input3 with
            | none => none
            | some (.error e) => some (.error e)
            | some (.ok (rhs, input4)) => some (.ok (.Fn ident rhs, input4))
        | _ => some (.error .ExpectedIdentifier)

/-- Embeds `parse_parens_or_literal` (parser.rs lines 135-147). -/
def parse_parens_or_literal : Nat → List Token → Option (Except ParseError (Expr × List Token))
  | 0, _ => none
  | fuel + 1, input =>
    match parse_token input true with
    | .error e => some (.error e)
    | .ok (token, remaining) =>
      match token with
      | .Num _ => some (parse_number input)
      | .Ident _ => parse_ident fuel input
      | .StringLiteral s => some (.ok (.Literal (.String s), remaining))
      | .Symbol .OpenParens => parse_parens fuel input
      | .Symbol .Backslash => parse_backslash_lambda fuel input
      | .Symbol s => some (.error (.UnexpectedSymbol s))
      | .Whitespace => some (.error .UnexpectedWhitespace)

/-- Embeds the `while` loop of `parse_factorial` (parser.rs lines
151-154): wraps the result in `Factorial` for every `!` symbol. -/
def factorial_loop : Nat → Expr → List Token → Option (Expr × List Token)
  | 0, _, _ => none
  | fuel + 1, res, input =>
    match parse_fixed_symbol input .Factorial with
    | .ok ((), remaining) => factorial_loop fuel (.Factorial res) remaining
    | .error _ => some (res, input)

/-- Embeds `parse_factorial` (parser.rs lines 149-156). -/
def parse_factorial : Nat → List Token → Option (Except ParseError (Expr × List Token))
  | 0, _ => none
  | fuel + 1, input =>
    match parse_parens_or_literal fuel input with
    | none => none
    | some (.error e) => some (.error e)
    | some (.ok (res, input1)) =>
      match factorial_loop fuel res input1 with
      | none => none
      | some (res2, input2) => some (.ok (res2, input2))

/-- Embeds the tail of `parse_power` after the unary-prefix block
(parser.rs lines 175-181): a factorial-level term, optionally followed by
`^` and a recursive right-associative power expression. -/
def parse_power_rest : Nat → List Token → Option (Except ParseError (Expr × List Token))
  | 0, _ => none
  | fuel + 1, input =>
    match parse_factorial fuel input with
    | none => none
    | some (.error e) => some (.error e)
    | some (.ok (result, input1)) =>
      match parse_fixed_symbol input1 .Pow with
      | .ok ((), remaining) =>
        match parse_power fuel remaining true with
        | none => none
        | some (.error e) => some (.error e)
        | some (.ok (rhs, remaining2)) =>
          some (.ok (.Bop .Pow result rhs, remaining2))
      | .error _ => some (.ok (result, input1))

/-- Embeds `parse_power` (parser.rs lines 158-182).  When `allow_unary` is
set, a leading `-`, `+` or `/` wraps the recursive parse of the entire
following power expression. -/
def parse_power : Nat → List Token → Bool → Option (Except ParseError (Expr × List Token))
  | 0, _, _ => none
  | fuel + 1, input, allow_unary =>
    if allow_unary then
      match parse_fixed_symbol input .Sub with
      | .ok ((), remaining) =>
        match parse_power fuel remaining true with
        | none => none
        | some (.error e) => some (.error e)
        | some (.ok (result, remaining2)) => some (.ok (.UnaryMinus result, remaining2))
      | .error _ =>
        match parse_fixed_symbol input .Add with
        | .ok ((), remaining) =>
          match parse_power fuel remaining true with
          | none => none
          | some (.error e) => some (.error e)
          | some (.ok (result, remaining2)) => some (.ok (.UnaryPlus result, remaining2))
        | .error _ =>
          match parse_fixed_symbol input .Div with
          | .ok ((), remaining) =>
            match parse_power fuel remaining true with
            | none => none
            | some (.error e) => some (.error e)
            | some (.ok (result, remaining2)) => some (.ok (.UnaryDiv result, remaining2))
          | .error _ => parse_power_rest fuel input
    else parse_power_rest fuel input

/-- Embeds `parse_apply_cont` (parser.rs lines 184-219): the
implicit-apply continuation, classifying the pair of the current left
operand and the next power-precedence term. -/
def parse_apply_cont : Nat → List Token → Expr → Option (Except ParseError (Expr × List Token))
  | 0, _, _ => none
  | fuel + 1, input, lhs =>
    match parse_power fuel input false with
    | none => none
    | some (.error e) => some (.error e)
    | some (.ok (rhs, input1)) =>
      some (match lhs, rhs with
        | .Literal (.Num _), .Literal (.Num _)
        | .UnaryMinus _, .Literal (.Num _)
        | .ApplyMul _ _, .Literal (.Num _) =>
          .error .InvalidApplyOperands
        | .Literal (.Num _), .Bop .Pow a _
        | .UnaryMinus _, .Bop .Pow a _
        | .ApplyMul _ _, .Bop .Pow a _ =>
          match a with
          | .Literal (.Num _) => .error .InvalidApplyOperands
          | _ => .ok (.Apply lhs rhs, input1)
        | .Ident i, .Literal (.Num _) =>
          if i.isPrefixUnit then .ok (.Apply lhs rhs, input1)
          else .ok (.ApplyFunctionCall lhs rhs, input1)
        | _, .Literal (.Num _) => .ok (.ApplyFunctionCall lhs rhs, input1)
        | .Literal (.Num _), _
        | .ApplyMul _ _, _ => .ok (.ApplyMul lhs rhs, input1)
        | _, _ => .ok (.Apply lhs rhs, input1))

/-- Embeds `parse_mixed_fraction` (parser.rs lines 221-269). -/
def parse_mixed_fraction : Nat → List Token → Expr → Option (Except ParseError (Expr × List Token))
  | 0, _, _ => none
  | fuel + 1, input, lhs =>
    match mixed_fraction_lhs lhs with
    | .error e => some (.error e)
    | .ok (positive, lhs2, other_factor) =>
      match parse_power fuel input false with
      | none => none
      | some (.error e) => some (.error e)
      | some (.ok (rhs_top, input1)) =>
        match rhs_top with
        | .Literal (.Num _) =>
          match parse_fixed_symbol input1 .Div with
          | .error e => some (.error e)
          | .ok ((), input2) =>
            match parse_power fuel input2 false with
            | none => none
            | some (.error e) => some (.error e)
            | some (.ok (rhs_bottom, input3)) =>
              match rhs_bottom with
              | .Literal (.Num _) =>
                let rhs := Expr.Bop .Div rhs_top rhs_bottom
                let mixed := if positive then Expr.Bop .Plus lhs2 rhs
                  else Expr.Bop .Minus lhs2 rhs
                some (.ok
                  (match other_factor with
                    | none => mixed
                    | some f => .Bop .Mul f mixed, input3))
              | _ => some (.error .InvalidMixedFraction)
        | _ => some (.error .InvalidMixedFraction)

/-- Embeds `parse_multiplication_cont` (parser.rs lines 271-275). -/
def parse_multiplication_cont : Nat → List Token → Option (Except ParseError (Expr × List Token))
  | 0, _ => none
  | fuel + 1, input =>
    match parse_fixed_symbol input .Mul with
    | .error e => some (.error e)
    | .ok ((), input1) => parse_power fuel input1 true

/-- Embeds `parse_division_cont` (parser.rs lines 277-281). -/
def parse_division_cont : Nat → List Token → Option (Except ParseError (Expr × List Token))
  | 0, _ => none
  | fuel + 1, input =>
    match parse_fixed_symbol input .Div with
    | .error e => some (.error e)
    | .ok ((), input1) => parse_power fuel input1 true

/-- Embeds `parse_modulo_cont` (parser.rs lines 283-287). -/
def parse_modulo_cont : Nat → List Token → Option (Except ParseError (Expr × List Token))
  | 0, _ => none
  | fuel + 1, input =>
    match parse_fixed_symbol input .Mod with
    | .error e => some (.error e)
    | .ok ((), input1) => parse_power fuel input1 true

/-- Embeds the `loop` of `parse_multiplicative` (parser.rs lines 291-310):
the five same-precedence continuations tried in priority order; the chain
ends when all fail, so the loop itself never produces an error. -/
def parse_multiplicative_loop : Nat → Expr → List Token → Option (Expr × List Token)
  | 0, _, _ => none
  | fuel + 1, res, input =>
    match parse_multiplication_cont fuel input with
    | none => none
    | some (.ok (term, remaining)) =>
      parse_multiplicative_loop fuel (.Bop .Mul res term) remaining
    | some (.error _) =>
      match parse_division_cont fuel input with
      | none => none
      | some (.ok (term, remaining)) =>
        parse_multiplicative_loop fuel (.Bop .Div res term) remaining
      | some (.error _) =>
        match parse_modulo_cont fuel input with
        | none => none
        | some (.ok (term, remaining)) =>
          parse_multiplicative_loop fuel (.Bop .Mod res term) remaining
        | some (.error _) =>
          match parse_mixed_fraction fuel input res with
          | none => none
          | some (.ok (new_res, remaining)) =>
            parse_multiplicative_loop fuel new_res remaining
          | some (.error _) =>
            match parse_apply_cont fuel input res with
            | none => none
            | some (.ok (new_res, remaining)) =>
              parse_multiplicative_loop fuel new_res remaining
            | some (.error _) => some (res, input)

/-- Embeds `parse_multiplicative` (parser.rs lines 289-312). -/
def parse_multiplicative : Nat → List Token → Option (Except ParseError (Expr × List Token))
  | 0, _ => none
  | fuel + 1, input =>
    match parse_power fuel input true with
    | none => none
    | some (.error e) => some (.error e)
    | some (.ok (res, input1)) =>
      match parse_multiplicative_loop fuel res input1 with
      | none => none
      | some (res2, input2) => some (.ok (res2, input2))

/-- Embeds `parse_implicit_addition` (parser.rs lines 314-330). -/
def parse_implicit_addition : Nat → List Token → Option (Except ParseError (Expr × List Token))
  | 0, _ => none
  | fuel + 1, input =>
    match parse_multiplicative fuel input with
    | none => none
    | some (.error e) => some (.error e)
    | some (.ok (res, input1)) =>
      match parse_implicit_addition fuel input1 with
      | none => none
      | some (.error _) => some (.ok (res, input1))
      | some (.ok (rhs, remaining)) =>
        if implicit_addition_combines res rhs then
          some (.ok (.Bop .ImplicitPlus res rhs, remaining))
        else some (.ok (res, input1))

/-- Embeds `parse_addition_cont` (parser.rs lines 332-336). -/
def parse_addition_cont : Nat → List Token → Option (Except ParseError (Expr × List Token))
  | 0, _ => none
  | fuel + 1, input =>
    match parse_fixed_symbol input .Add with
    | .error e => some (.error e)
    | .ok ((), input1) => parse_implicit_addition fuel input1

/-- Embeds `parse_subtraction_cont` (parser.rs lines 338-342). -/
def parse_subtraction_cont : Nat → List Token → Option (Except ParseError (Expr × List Token))
  | 0, _ => none
  | fuel + 1, input =>
    match parse_fixed_symbol input .Sub with
    | .error e => some (.error e)
    | .ok ((), input1) => parse_implicit_addition fuel input1

/-- Embeds `parse_to_cont` (parser.rs lines 344-348). -/
def parse_to_cont : Nat → List Token → Option (Except ParseError (Expr × List Token))
  | 0, _ => none
  | fuel + 1, input =>
    match parse_fixed_symbol input .UnitConversion with
    | .error e => some (.error e)
    | .ok ((), input1) => parse_implicit_addition fuel input1

/-- Embeds the `loop` of `parse_additive` (parser.rs lines 352-365). -/
def parse_additive_loop : Nat → Expr → List Token → Option (Expr × List Token)
  | 0, _, _ => none
  | fuel + 1, res, input =>
    match parse_addition_cont fuel input with
    | none => none
    | some (.ok (term, remaining)) =>
      parse_additive_loop fuel (.Bop .Plus res term) remaining
    | some (.error _) =>
      match parse_subtraction_cont fuel input with
      | none => none
      | some (.ok (term, remaining)) =>
        parse_additive_loop fuel (.Bop .Minus res term) remaining
      | some (.error _) =>
        match parse_to_cont fuel input with
        | none => none
        | some (.ok (term, remaining)) =>
          parse_additive_loop fuel (.As res term) remaining
        | some (.error _) => some (res, input)

/-- Embeds `parse_additive` (parser.rs lines 350-367). -/
def parse_additive : Nat → List Token → Option (Except ParseError (Expr × List Token))
  | 0, _ => none
  | fuel + 1, input =>
    match parse_implicit_addition fuel input with
    | none => none
    | some (.error e) => some (.error e)
    | some (.ok (res, input1)) =>
      match parse_additive_loop fuel res input1 with
      | none => none
      | some (res2, input2) => some (.ok (res2, input2))

/-- Embeds `parse_function` (parser.rs lines 369-379). -/
def parse_function : Nat → List Token → Option (Except ParseError (Expr × List Token))
  | 0, _ => none
  | fuel + 1, input =>
    match parse_additive fuel input with
    | none => none
    | some (.error e) => some (.error e)
    | some (.ok (lhs, input1)) =>
      match parse_fixed_symbol input1 .Fn with
      | .ok ((), remaining) =>
        match lhs with
        | .Ident s =>
          match parse_function fuel remaining with
          | none => none
          | some (.error e) => some (.error e)
          | some (.ok (rhs, remaining2)) => some (.ok (.Fn s rhs, remaining2))
        | _ => some (.error .ExpectedIdentifierAsArgument)
      | .error _ => some (.ok (lhs, input1))

/-- Embeds `parse_assignment` (parser.rs lines 381-391). -/
def parse_assignment : Nat → List Token → Option (Except ParseError (Expr × List Token))
  | 0, _ => none
  | fuel + 1, input =>
    match parse_function fuel input with
    | none => none
    | some (.error e) => some (.error e)
    | some (.ok (lhs, input1)) =>
      match parse_fixed_symbol input1 .Equals with
      | .ok ((), remaining) =>
        match lhs with
        | .Ident s =>
          match parse_assignment fuel remaining with
          | none => none
          | some (.error e) => some (.error e)
          | some (.ok (rhs, remaining2)) => some (.ok (.Assign s rhs, remaining2))
        | _ => some (.error .ExpectedIdentifierInAssignment)
      | .error _ => some (.ok (lhs, input1))

/-- Embeds the leading semicolon-skipping `while` loop of
`parse_statements` (parser.rs lines 394-396). -/
def skip_semicolons : Nat → List Token → Option (List Token)
  | 0, _ => none
  | fuel + 1, input =>
    match parse_fixed_symbol input .Semicolon with
    | .ok ((), remaining) => skip_semicolons fuel remaining
    | .error _ => some input

/-- Embeds the statement-chaining `while` loop of `parse_statements`
(parser.rs lines 401-409): consumes a `;`; when the rest is empty or
starts with another `;` the separator is skipped, otherwise another
assignment-precedence statement is parsed and chained. -/
def parse_statements_loop : Nat → Expr → List Token → Option (Except ParseError (Expr × List Token))
  | 0, _, _ => none
  | fuel + 1, result, input =>
    match parse_fixed_symbol input .Semicolon with
    | .error _ => some (.ok (result, input))
    | .ok ((), remaining) =>
      match remaining with
      | [] => parse_statements_loop fuel result remaining
      | .Symbol .Semicolon :: _ => parse_statements_loop fuel result remaining
      | _ =>
        match parse_assignment fuel remaining with
        | none => none
        | some (.error e) => some (.error e)
        | some (.ok (rhs, remaining2)) =>
          parse_statements_loop fuel (.Statements result rhs) remaining2

/-- Embeds `parse_statements` (parser.rs lines 393-411). -/
def parse_statements : Nat → List Token → Option (Except ParseError (Expr × List Token))
  | 0, _ => none
  | fuel + 1, input =>
    match skip_semicolons fuel input with
    | none => none
    | some input1 =>
      match input1 with
      | [] => some (.ok (.Literal .Unit, []))
      | _ :: _ =>
        match parse_assignment fuel input1 with
        | none => none
        | some (.error e) => some (.error e)
        | some (.ok (result, input2)) => parse_statements_loop fuel result input2

end

/-- Embeds `parse_expression` (parser.rs lines 413-415). -/
def parse_expression (fuel : Nat) (input : List Token) :
    Option (Except ParseError (Expr × List Token)) :=
  parse_statements fuel input

/-- The fuel bound used by the top-level entry point.  The sufficiency
theorem `suff_all` shows this bound is never exhausted, so the embedded
`parse_tokens` below is total like its Rust counterpart. -/
def parse_fuel (input : List Token) : Nat :=
  16 * input.length + 16

/-- Embeds `parse_tokens` (parser.rs lines 417-423): parses a full
expression and requires every token to be consumed.  The `none` (fuel
exhaustion) arm is proved unreachable by `parse_tokens_total_thm`; its
value is the top-level `UnexpectedInput` error. -/
def parse_tokens (input : List Token) : Except ParseError Expr :=
  match parse_expression (parse_fuel input) input with
  | none => .error .UnexpectedInput
  | some (.error e) => .error e
  | some (.ok (res, remaining)) =>
    if remaining.isEmpty then .ok res else .error .UnexpectedInput

/-! ### Helper lemmas -/

/-- With whitespace skipping enabled, `parse_token` ignores a leading
whitespace token. -/
theorem parse_token_skips_whitespace (rest : List Token) :
    parse_token (.Whitespace :: rest) true = parse_token rest true := rfl

/-- `parse_ident` ignores a leading whitespace token (its only look at the
input is through `parse_token` with whitespace skipping on). -/
theorem parse_ident_skips_whitespace (fuel : Nat) (rest : List Token) :
    parse_ident fuel (.Whitespace :: rest) = parse_ident fuel rest := by
  cases fuel with
  | zero => rfl
  | succ n => rfl

/-! ### Consumption, fuel sufficiency and error-confinement lemmas -/

theorem parse_token_consumes :
    ∀ (input : List Token) (skip : Bool) (t : Token) (rem : List Token),
      parse_token input skip = .ok (t, rem) → rem.length < input.length := by
  intro input
  induction input with
  | nil => intro skip t rem h; cases h
  | cons hd tl ih =>
    intro skip t rem h
    match hd, skip with
    | .Whitespace, true =>
      have := ih true t rem h
      simp
      omega
    | .Whitespace, false => cases h; simp
    | .Num n, b => cases h; simp
    | .Ident i, b => cases h; simp
    | .StringLiteral s, b => cases h; simp
    | .Symbol s, b => cases h; simp

theorem parse_fixed_symbol_consumes (input : List Token) (s : Symbol)
    (rem : List Token) (h : parse_fixed_symbol input s = .ok ((), rem)) :
    rem.length < input.length := by
  unfold parse_fixed_symbol at h
  split at h
  · cases h
  · split at h
    · cases h
      exact parse_token_consumes input true _ rem (by assumption)
    · cases h
  · cases h

theorem parse_number_consumes (input : List Token)
    (x : Expr) (rem : List Token) (h : parse_number input = .ok (x, rem)) :
    rem.length < input.length := by
  unfold parse_number at h
  split at h
  · cases h
  · cases h
    exact parse_token_consumes input true _ rem (by assumption)
  · cases h





/-- Consumption bounds for every fueled parser: a successful parse leaves
a strictly shorter remainder (the loop helpers and the statement layer,
which may succeed without consuming, leave a no-longer remainder). -/
theorem consumes_all : ∀ fuel : Nat,
    (∀ input x rem, parse_ident fuel input = some (.ok (x, rem)) → rem.length < input.length) ∧
    (∀ input x rem, parse_parens fuel input = some (.ok (x, rem)) → rem.length < input.length) ∧
    (∀ input x rem, parse_backslash_lambda fuel input = some (.ok (x, rem)) → rem.length < input.length) ∧
    (∀ input x rem, parse_parens_or_literal fuel input = some (.ok (x, rem)) → rem.length < input.length) ∧
    (∀ res input x rem, factorial_loop fuel res input = some (x, rem) → rem.length ≤ input.length) ∧
    (∀ input x rem, parse_factorial fuel input = some (.ok (x, rem)) → rem.length < input.length) ∧
    (∀ input x rem, parse_power_rest fuel input = some (.ok (x, rem)) → rem.length < input.length) ∧
    (∀ input b x rem, parse_power fuel input b = some (.ok (x, rem)) → rem.length < input.length) ∧
    (∀ input lhs x rem, parse_apply_cont fuel input lhs = some (.ok (x, rem)) → rem.length < input.length) ∧
    (∀ input lhs x rem, parse_mixed_fraction fuel input lhs = some (.ok (x, rem)) → rem.length < input.length) ∧
    (∀ input x rem, parse_multiplication_cont fuel input = some (.ok (x, rem)) → rem.length < input.length) ∧
    (∀ input x rem, parse_division_cont fuel input = some (.ok (x, rem)) → rem.length < input.length) ∧
    (∀ input x rem, parse_modulo_cont fuel input = some (.ok (x, rem)) → rem.length < input.length) ∧
    (∀ res input x rem, parse_multiplicative_loop fuel res input = some (x, rem) → rem.length ≤ input.length) ∧
    (∀ input x rem, parse_multiplicative fuel input = some (.ok (x, rem)) → rem.length < input.length) ∧
    (∀ input x rem, parse_implicit_addition fuel input = some (.ok (x, rem)) → rem.length < input.length) ∧
    (∀ input x rem, parse_addition_cont fuel input = some (.ok (x, rem)) → rem.length < input.length) ∧
    (∀ input x rem, parse_subtraction_cont fuel input = some (.ok (x, rem)) → rem.length < input.length) ∧
    (∀ input x rem, parse_to_cont fuel input = some (.ok (x, rem)) → rem.length < input.length) ∧
    (∀ res input x rem, parse_additive_loop fuel res input = some (x, rem) → rem.length ≤ input.length) ∧
    (∀ input x rem, parse_additive fuel input = some (.ok (x, rem)) → rem.length < input.length) ∧
    (∀ input x rem, parse_function fuel input = some (.ok (x, rem)) → rem.length < input.length) ∧
    (∀ input x rem, parse_assignment fuel input = some (.ok (x, rem)) → rem.length < input.length) ∧
    (∀ input rem, skip_semicolons fuel input = some rem → rem.length ≤ input.length) ∧
    (∀ res input x rem, parse_statements_loop fuel res input = some (.ok (x, rem)) → rem.length ≤ input.length) ∧
    (∀ input x rem, parse_statements fuel input = some (.ok (x, rem)) → rem.length ≤ input.length) := by
  intro fuel
  induction fuel with
  | zero =>
    refine ⟨?_, ?_, ?_, ?_, ?_, ?_, ?_, ?_, ?_, ?_, ?_, ?_, ?_, ?_, ?_, ?_, ?_,
      ?_, ?_, ?_, ?_, ?_, ?_, ?_, ?_, ?_⟩ <;> intros <;>
      simp_all [parse_ident, parse_parens, parse_backslash_lambda,
        parse_parens_or_literal, factorial_loop, parse_factorial,
        parse_power_rest, parse_power, parse_apply_cont, parse_mixed_fraction,
        parse_multiplication_cont, parse_division_cont, parse_modulo_cont,
        parse_multiplicative_loop, parse_multiplicative,
        parse_implicit_addition, parse_addition_cont, parse_subtraction_cont,
        parse_to_cont, parse_additive_loop, parse_additive, parse_function,
        parse_assignment, skip_semicolons, parse_statements_loop,
        parse_statements]
  | succ n ih =>
    obtain ⟨ci, cp, cb, cpol, cfl, cf, cpr, cpw, cac, cmf, cmc, cdc, cmoc, cml,
      cm, cia, cadd, csub, cto, cal, ca, cfn, cas, css, csl, cst⟩ := ih
    refine ⟨?_, ?_, ?_, ?_, ?_, ?_, ?_, ?_, ?_, ?_, ?_, ?_, ?_, ?_, ?_, ?_, ?_,
      ?_, ?_, ?_, ?_, ?_, ?_, ?_, ?_, ?_⟩
    -- parse_ident
    · intro input x rem h
      simp only [parse_ident] at h
      split at h
      · simp at h
      · rename_i t ident remaining heq1
        split at h
        · rename_i u remaining2 heq2
          split at h
          · simp at h
          · simp at h
          · rename_i inner remaining3 heq3
            simp at h
            rcases h with ⟨rfl, rfl⟩
            have c1 := parse_token_consumes input true _ _ heq1
            have c2 := parse_fixed_symbol_consumes _ _ _ heq2
            have c3 := cpol _ _ _ heq3
            omega
        · simp at h
          rcases h with ⟨rfl, rfl⟩
          have c1 := parse_token_consumes input true _ _ heq1
          omega
      · simp at h
    -- parse_parens
    · intro input x rem h
      simp only [parse_parens] at h
      split at h
      · simp at h
      · rename_i u input1 heq1
        have c1 := parse_fixed_symbol_consumes _ _ _ heq1
        split at h
        · rename_i v remaining heq2
          simp at h
          rcases h with ⟨rfl, rfl⟩
          have c2 := parse_fixed_symbol_consumes _ _ _ heq2
          omega
        · split at h
          · simp at h
          · simp at h
          · rename_i inner input2 heq3
            have c3 := cst _ _ _ heq3
            split at h
            · simp at h
              rcases h with ⟨rfl, rfl⟩
              simp
              omega
            · split at h
              · simp at h
              · rename_i w remaining heq4
                simp at h
                rcases h with ⟨rfl, rfl⟩
                have c4 := parse_fixed_symbol_consumes _ _ _ heq4
                omega
    -- parse_backslash_lambda
    · intro input x rem h
      simp only [parse_backslash_lambda] at h
      split at h
      · simp at h
      · rename_i u input1 heq1
        have c1 := parse_fixed_symbol_consumes _ _ _ heq1
        split at h
        · simp at h
        · simp at h
        · rename_i lhs input2 heq2
          have c2 := ci _ _ _ heq2
          split at h
          · rename_i ident
            split at h
            · simp at h
            · rename_i v input3 heq3
              have c3 := parse_fixed_symbol_consumes _ _ _ heq3
              split at h
              · simp at h
              · simp at h
              · rename_i rhs input4 heq4
                have c4 := cfn _ _ _ heq4
                simp at h
                rcases h with ⟨rfl, rfl⟩
                omega
          · simp at h
    -- parse_parens_or_literal
    · intro input x rem h
      simp only [parse_parens_or_literal] at h
      split at h
      · simp at h
      · rename_i t token remaining heq1
        have c1 := parse_token_consumes input true _ _ heq1
        split at h
        · simp at h
          exact parse_number_consumes _ _ _ h
        · exact ci _ _ _ h
        · simp at h
          rcases h with ⟨rfl, rfl⟩
          omega
        · exact cp _ _ _ h
        · exact cb _ _ _ h
        · simp at h
        · simp at h
    -- factorial_loop
    · intro res input x rem h
      simp only [factorial_loop] at h
      split at h
      · rename_i u remaining heq1
        have c1 := parse_fixed_symbol_consumes _ _ _ heq1
        have c2 := cfl _ _ _ _ h
        omega
      · simp at h
        rcases h with ⟨rfl, rfl⟩
        omega
    -- parse_factorial
    · intro input x rem h
      simp only [parse_factorial] at h
      split at h
      · simp at h
      · simp at h
      · rename_i res input1 heq1
        have c1 := cpol _ _ _ heq1
        split at h
        · simp at h
        · rename_i res2 input2 heq2
          have c2 := cfl _ _ _ _ heq2
          simp at h
          rcases h with ⟨rfl, rfl⟩
          omega
    -- parse_power_rest
    · intro input x rem h
      simp only [parse_power_rest] at h
      split at h
      · simp at h
      · simp at h
      · rename_i result input1 heq1
        have c1 := cf _ _ _ heq1
        split at h
        · rename_i u remaining heq2
          have c2 := parse_fixed_symbol_consumes _ _ _ heq2
          split at h
          · simp at h
          · simp at h
          · rename_i rhs remaining2 heq3
            have c3 := cpw _ _ _ _ heq3
            simp at h
            rcases h with ⟨rfl, rfl⟩
            omega
        · simp at h
          rcases h with ⟨rfl, rfl⟩
          omega
    -- parse_power
    · intro input b x rem h
      simp only [parse_power] at h
      split at h
      · split at h
        · rename_i u remaining heq1
          have c1 := parse_fixed_symbol_consumes _ _ _ heq1
          split at h
          · simp at h
          · simp at h
          · rename_i result remaining2 heq2
            have c2 := cpw _ _ _ _ heq2
            simp at h
            rcases h with ⟨rfl, rfl⟩
            omega
        · split at h
          · rename_i u remaining heq1
            have c1 := parse_fixed_symbol_consumes _ _ _ heq1
            split at h
            · simp at h
            · simp at h
            · rename_i result remaining2 heq2
              have c2 := cpw _ _ _ _ heq2
              simp at h
              rcases h with ⟨rfl, rfl⟩
              omega
          · split at h
            · rename_i u remaining heq1
              have c1 := parse_fixed_symbol_consumes _ _ _ heq1
              split at h
              · simp at h
              · simp at h
              · rename_i result remaining2 heq2
                have c2 := cpw _ _ _ _ heq2
                simp at h
                rcases h with ⟨rfl, rfl⟩
                omega
            · exact cpr _ _ _ h
      · exact cpr _ _ _ h
    -- parse_apply_cont
    · intro input lhs x rem h
      simp only [parse_apply_cont] at h
      split at h
      · simp at h
      · simp at h
      · rename_i rhs input1 heq
        have hlt := cpw _ _ _ _ heq
        repeat' split at h
        all_goals simp at h
        all_goals (rcases h with ⟨rfl, rfl⟩; omega)
    -- parse_mixed_fraction
    · intro input lhs x rem h
      simp only [parse_mixed_fraction] at h
      split at h
      · simp at h
      · rename_i positive lhs2 other heq0
        split at h
        · simp at h
        · simp at h
        · rename_i rhs_top input1 heq1
          have c1 := cpw _ _ _ _ heq1
          split at h
          · split at h
            · simp at h
            · rename_i u input2 heq2
              have c2 := parse_fixed_symbol_consumes _ _ _ heq2
              split at h
              · simp at h
              · simp at h
              · rename_i rhs_bottom input3 heq3
                have c3 := cpw _ _ _ _ heq3
                repeat' split at h
                all_goals simp at h
                all_goals (rcases h with ⟨rfl, rfl⟩; omega)
          · simp at h
    -- parse_multiplication_cont
    · intro input x rem h
      simp only [parse_multiplication_cont] at h
      split at h
      · simp at h
      · rename_i u input1 heq1
        have c1 := parse_fixed_symbol_consumes _ _ _ heq1
        have c2 := cpw _ _ _ _ h
        omega
    -- parse_division_cont
    · intro input x rem h
      simp only [parse_division_cont] at h
      split at h
      · simp at h
      · rename_i u input1 heq1
        have c1 := parse_fixed_symbol_consumes _ _ _ heq1
        have c2 := cpw _ _ _ _ h
        omega
    -- parse_modulo_cont
    · intro input x rem h
      simp only [parse_modulo_cont] at h
      split at h
      · simp at h
      · rename_i u input1 heq1
        have c1 := parse_fixed_symbol_consumes _ _ _ heq1
        have c2 := cpw _ _ _ _ h
        omega
    -- parse_multiplicative_loop
    · intro res input x rem h
      simp only [parse_multiplicative_loop] at h
      split at h
      · simp at h
      · rename_i term remaining heq1
        have c1 := cmc _ _ _ heq1
        have c2 := cml _ _ _ _ h
        omega
      · split at h
        · simp at h
        · rename_i term remaining heq1
          have c1 := cdc _ _ _ heq1
          have c2 := cml _ _ _ _ h
          omega
        · split at h
          · simp at h
          · rename_i term remaining heq1
            have c1 := cmoc _ _ _ heq1
            have c2 := cml _ _ _ _ h
            omega
          · split at h
            · simp at h
            · rename_i new_res remaining heq1
              have c1 := cmf _ _ _ _ heq1
              have c2 := cml _ _ _ _ h
              omega
            · split at h
              · simp at h
              · rename_i new_res remaining heq1
                have c1 := cac _ _ _ _ heq1
                have c2 := cml _ _ _ _ h
                omega
              · simp at h
                rcases h with ⟨rfl, rfl⟩
                omega
    -- parse_multiplicative
    · intro input x rem h
      simp only [parse_multiplicative] at h
      split at h
      · simp at h
      · simp at h
      · rename_i res input1 heq1
        have c1 := cpw _ _ _ _ heq1
        split at h
        · simp at h
        · rename_i res2 input2 heq2
          have c2 := cml _ _ _ _ heq2
          simp at h
          rcases h with ⟨rfl, rfl⟩
          omega
    -- parse_implicit_addition
    · intro input x rem h
      simp only [parse_implicit_addition] at h
      split at h
      · simp at h
      · simp at h
      · rename_i res input1 heq1
        have c1 := cm _ _ _ heq1
        split at h
        · simp at h
        · simp at h
          rcases h with ⟨rfl, rfl⟩
          omega
        · rename_i rhs remaining heq2
          have c2 := cia _ _ _ heq2
          split at h <;> simp at h <;> (rcases h with ⟨rfl, rfl⟩; omega)
    -- parse_addition_cont
    · intro input x rem h
      simp only [parse_addition_cont] at h
      split at h
      · simp at h
      · rename_i u input1 heq1
        have c1 := parse_fixed_symbol_consumes _ _ _ heq1
        have c2 := cia _ _ _ h
        omega
    -- parse_subtraction_cont
    · intro input x rem h
      simp only [parse_subtraction_cont] at h
      split at h
      · simp at h
      · rename_i u input1 heq1
        have c1 := parse_fixed_symbol_consumes _ _ _ heq1
        have c2 := cia _ _ _ h
        omega
    -- parse_to_cont
    · intro input x rem h
      simp only [parse_to_cont] at h
      split at h
      · simp at h
      · rename_i u input1 heq1
        have c1 := parse_fixed_symbol_consumes _ _ _ heq1
        have c2 := cia _ _ _ h
        omega
    -- parse_additive_loop
    · intro res input x rem h
      simp only [parse_additive_loop] at h
      split at h
      · simp at h
      · rename_i term remaining heq1
        have c1 := cadd _ _ _ heq1
        have c2 := cal _ _ _ _ h
        omega
      · split at h
        · simp at h
        · rename_i term remaining heq1
          have c1 := csub _ _ _ heq1
          have c2 := cal _ _ _ _ h
          omega
        · split at h
          · simp at h
          · rename_i term remaining heq1
            have c1 := cto _ _ _ heq1
            have c2 := cal _ _ _ _ h
            omega
          · simp at h
            rcases h with ⟨rfl, rfl⟩
            omega
    -- parse_additive
    · intro input x rem h
      simp only [parse_additive] at h
      split at h
      · simp at h
      · simp at h
      · rename_i res input1 heq1
        have c1 := cia _ _ _ heq1
        split at h
        · simp at h
        · rename_i res2 input2 heq2
          have c2 := cal _ _ _ _ heq2
          simp at h
          rcases h with ⟨rfl, rfl⟩
          omega
    -- parse_function
    · intro input x rem h
      simp only [parse_function] at h
      split at h
      · simp at h
      · simp at h
      · rename_i lhs input1 heq1
        have c1 := ca _ _ _ heq1
        split at h
        · rename_i u remaining heq2
          have c2 := parse_fixed_symbol_consumes _ _ _ heq2
          split at h
          · rename_i s
            split at h
            · simp at h
            · simp at h
            · rename_i rhs remaining2 heq3
              have c3 := cfn _ _ _ heq3
              simp at h
              rcases h with ⟨rfl, rfl⟩
              omega
          · simp at h
        · simp at h
          rcases h with ⟨rfl, rfl⟩
          omega
    -- parse_assignment
    · intro input x rem h
      simp only [parse_assignment] at h
      split at h
      · simp at h
      · simp at h
      · rename_i lhs input1 heq1
        have c1 := cfn _ _ _ heq1
        split at h
        · rename_i u remaining heq2
          have c2 := parse_fixed_symbol_consumes _ _ _ heq2
          split at h
          · rename_i s
            split at h
            · simp at h
            · simp at h
            · rename_i rhs remaining2 heq3
              have c3 := cas _ _ _ heq3
              simp at h
              rcases h with ⟨rfl, rfl⟩
              omega
          · simp at h
        · simp at h
          rcases h with ⟨rfl, rfl⟩
          omega
    -- skip_semicolons
    · intro input rem h
      simp only [skip_semicolons] at h
      split at h
      · rename_i u remaining heq1
        have c1 := parse_fixed_symbol_consumes _ _ _ heq1
        have c2 := css _ _ h
        omega
      · simp at h
        subst h
        omega
    -- parse_statements_loop
    · intro res input x rem h
      simp only [parse_statements_loop] at h
      split at h
      · simp at h
        rcases h with ⟨rfl, rfl⟩
        omega
      · rename_i u remaining heq1
        have c1 := parse_fixed_symbol_consumes _ _ _ heq1
        split at h
        · have c2 := csl _ _ _ _ h
          simp only [List.length_nil] at c2
          omega
        · have c2 := csl _ _ _ _ h
          omega
        · split at h
          · simp at h
          · simp at h
          · rename_i rhs remaining2 heq2
            have c2 := cas _ _ _ heq2
            have c3 := csl _ _ _ _ h
            omega
    -- parse_statements
    · intro input x rem h
      simp only [parse_statements] at h
      split at h
      · simp at h
      · rename_i input1 heq1
        have c1 := css _ _ heq1
        split at h
        · simp at h
          rcases h with ⟨rfl, rfl⟩
          simp
        · split at h
          · simp at h
          · simp at h
          · rename_i result input2 heq2
            have c2 := cas _ _ _ heq2
            have c3 := csl _ _ _ _ h
            omega


/-- Fuel sufficiency: with fuel exceeding sixteen times the input length
plus a per-layer rank, every fueled parser returns a result (`isSome`),
i.e. the fuel mechanism never cuts a parse short at the bound used by
`parse_tokens`. -/
theorem suff_all : ∀ fuel : Nat,
    (∀ input : List Token, 16 * input.length < fuel → (parse_ident fuel input).isSome) ∧
    (∀ input : List Token, 16 * input.length < fuel → (parse_parens fuel input).isSome) ∧
    (∀ input : List Token, 16 * input.length < fuel → (parse_backslash_lambda fuel input).isSome) ∧
    (∀ input : List Token, 16 * input.length + 1 < fuel → (parse_parens_or_literal fuel input).isSome) ∧
    (∀ (res : Expr) (input : List Token), 16 * input.length < fuel → (factorial_loop fuel res input).isSome) ∧
    (∀ input : List Token, 16 * input.length + 2 < fuel → (parse_factorial fuel input).isSome) ∧
    (∀ input : List Token, 16 * input.length + 3 < fuel → (parse_power_rest fuel input).isSome) ∧
    (∀ (input : List Token) (b : Bool), 16 * input.length + 4 < fuel → (parse_power fuel input b).isSome) ∧
    (∀ (input : List Token) (lhs : Expr), 16 * input.length + 5 < fuel → (parse_apply_cont fuel input lhs).isSome) ∧
    (∀ (input : List Token) (lhs : Expr), 16 * input.length + 5 < fuel → (parse_mixed_fraction fuel input lhs).isSome) ∧
    (∀ input : List Token, 16 * input.length + 5 < fuel → (parse_multiplication_cont fuel input).isSome) ∧
    (∀ input : List Token, 16 * input.length + 5 < fuel → (parse_division_cont fuel input).isSome) ∧
    (∀ input : List Token, 16 * input.length + 5 < fuel → (parse_modulo_cont fuel input).isSome) ∧
    (∀ (res : Expr) (input : List Token), 16 * input.length + 6 < fuel → (parse_multiplicative_loop fuel res input).isSome) ∧
    (∀ input : List Token, 16 * input.length + 7 < fuel → (parse_multiplicative fuel input).isSome) ∧
    (∀ input : List Token, 16 * input.length + 8 < fuel → (parse_implicit_addition fuel input).isSome) ∧
    (∀ input : List Token, 16 * input.length + 9 < fuel → (parse_addition_cont fuel input).isSome) ∧
    (∀ input : List Token, 16 * input.length + 9 < fuel → (parse_subtraction_cont fuel input).isSome) ∧
    (∀ input : List Token, 16 * input.length + 9 < fuel → (parse_to_cont fuel input).isSome) ∧
    (∀ (res : Expr) (input : List Token), 16 * input.length + 10 < fuel → (parse_additive_loop fuel res input).isSome) ∧
    (∀ input : List Token, 16 * input.length + 11 < fuel → (parse_additive fuel input).isSome) ∧
    (∀ input : List Token, 16 * input.length + 12 < fuel → (parse_function fuel input).isSome) ∧
    (∀ input : List Token, 16 * input.length + 13 < fuel → (parse_assignment fuel input).isSome) ∧
    (∀ input : List Token, 16 * input.length + 14 < fuel → (skip_semicolons fuel input).isSome) ∧
    (∀ (res : Expr) (input : List Token), 16 * input.length + 14 < fuel → (parse_statements_loop fuel res input).isSome) ∧
    (∀ input : List Token, 16 * input.length + 15 < fuel → (parse_statements fuel input).isSome) := by
  intro fuel
  induction fuel with
  | zero =>
    refine ⟨?_, ?_, ?_, ?_, ?_, ?_, ?_, ?_, ?_, ?_, ?_, ?_, ?_, ?_, ?_, ?_, ?_,
      ?_, ?_, ?_, ?_, ?_, ?_, ?_, ?_, ?_⟩ <;> intros <;> omega
  | succ n ih =>
    obtain ⟨si, sp, sb, spol, sfl, sf, spr, spw, sac, smf, smc, sdc, smoc, sml,
      sm, sia, sadd, ssub, sto, sal, sa, sfn, sas, sss, ssl, sst⟩ := ih
    obtain ⟨ci, cp, cb, cpol, cfl, cf, cpr, cpw, cac, cmf, cmc, cdc, cmoc, cml,
      cm, cia, cadd, csub, cto, cal, ca, cfn, cas, css, csl, cst⟩ := consumes_all n
    refine ⟨?_, ?_, ?_, ?_, ?_, ?_, ?_, ?_, ?_, ?_, ?_, ?_, ?_, ?_, ?_, ?_, ?_,
      ?_, ?_, ?_, ?_, ?_, ?_, ?_, ?_, ?_⟩
    -- parse_ident
    · intro input h
      simp only [parse_ident]
      rcases ht : parse_token input true with e | ⟨t, remaining⟩
      · simp [ht]
      · have c1 := parse_token_consumes input true _ _ ht
        cases t <;> simp [ht]
        rename_i ident
        rcases hf : parse_fixed_symbol remaining .Of with e2 | ⟨u, remaining2⟩
        · simp [hf]
        · have c2 := parse_fixed_symbol_consumes _ _ _ hf
          have hpol := spol remaining2 (by omega)
          rcases hr : parse_parens_or_literal n remaining2 with _ | r
          · rw [hr] at hpol
            simp at hpol
          · rcases r with e3 | ⟨inner, remaining3⟩ <;> simp [hf, hr]
    -- parse_parens
    · intro input h
      simp only [parse_parens]
      rcases ho : parse_fixed_symbol input .OpenParens with e | ⟨u, input1⟩
      · simp [ho]
      · have c1 := parse_fixed_symbol_consumes _ _ _ ho
        rcases hc : parse_fixed_symbol input1 .CloseParens with e2 | ⟨v, remaining⟩
        · have hst := sst input1 (by omega)
          rcases hr : parse_statements n input1 with _ | r
          · rw [hr] at hst
            simp at hst
          · rcases r with e3 | ⟨inner, input2⟩
            · simp [ho, hc, hr]
            · rcases input2 with _ | ⟨t2, ts2⟩
              · simp [ho, hc, hr]
              · rcases hc2 : parse_fixed_symbol (t2 :: ts2) .CloseParens with e4 | ⟨w, remaining2⟩ <;>
                  simp [ho, hc, hr, hc2]
        · simp [ho, hc]
    -- parse_backslash_lambda
    · intro input h
      simp only [parse_backslash_lambda]
      rcases hb : parse_fixed_symbol input .Backslash with e | ⟨u, input1⟩
      · simp [hb]
      · have c1 := parse_fixed_symbol_consumes _ _ _ hb
        have hi := si input1 (by omega)
        rcases hr : parse_ident n input1 with _ | r
        · rw [hr] at hi
          simp at hi
        · rcases r with e2 | ⟨lhs, input2⟩
          · simp [hb, hr]
          · have c2 := ci _ _ _ hr
            cases lhs <;> simp [hb, hr]
            rename_i ident
            rcases hd : parse_fixed_symbol input2 .Dot with e3 | ⟨v, input3⟩
            · simp [hd]
            · have c3 := parse_fixed_symbol_consumes _ _ _ hd
              have hfn := sfn input3 (by omega)
              rcases hr2 : parse_function n input3 with _ | r2
              · rw [hr2] at hfn
                simp at hfn
              · rcases r2 with e4 | ⟨rhs, input4⟩ <;> simp [hd, hr2]
    -- parse_parens_or_literal
    · intro input h
      simp only [parse_parens_or_literal]
      rcases ht : parse_token input true with e | ⟨t, remaining⟩
      · simp [ht]
      · cases t with
        | Num m => simp [ht]
        | Ident i =>
          have hi := si input (by omega)
          simpa [ht] using hi
        | StringLiteral s => simp [ht]
        | Symbol s =>
          cases s <;>
            first
            | (have hp := sp input (by omega)
               simpa [ht] using hp)
            | (have hbl := sb input (by omega)
               simpa [ht] using hbl)
            | simp [ht]
        | Whitespace => simp [ht]
    -- factorial_loop
    · intro res input h
      simp only [factorial_loop]
      rcases hf : parse_fixed_symbol input .Factorial with e | ⟨u, remaining⟩
      · simp [hf]
      · have c1 := parse_fixed_symbol_consumes _ _ _ hf
        have hl := sfl (.Factorial res) remaining (by omega)
        simpa [hf] using hl
    -- parse_factorial
    · intro input h
      simp only [parse_factorial]
      have hp := spol input (by omega)
      rcases hr : parse_parens_or_literal n input with _ | r
      · rw [hr] at hp
        simp at hp
      · rcases r with e | ⟨res, input1⟩
        · simp [hr]
        · have c1 := cpol _ _ _ hr
          have hl := sfl res input1 (by omega)
          rcases hr2 : factorial_loop n res input1 with _ | ⟨res2, input2⟩
          · rw [hr2] at hl
            simp at hl
          · simp [hr, hr2]
    -- parse_power_rest
    · intro input h
      simp only [parse_power_rest]
      have hf := sf input (by omega)
      rcases hr : parse_factorial n input with _ | r
      · rw [hr] at hf
        simp at hf
      · rcases r with e | ⟨result, input1⟩
        · simp [hr]
        · have c1 := cf _ _ _ hr
          rcases hp : parse_fixed_symbol input1 .Pow with e2 | ⟨u, remaining⟩
          · simp [hr, hp]
          · have c2 := parse_fixed_symbol_consumes _ _ _ hp
            have hpw := spw remaining true (by omega)
            rcases hr2 : parse_power n remaining true with _ | r2
            · rw [hr2] at hpw
              simp at hpw
            · rcases r2 with e3 | ⟨rhs, remaining2⟩ <;> simp [hr, hp, hr2]
    -- parse_power
    · intro input b h
      simp only [parse_power]
      cases b with
      | false =>
        have hpr := spr input (by omega)
        simpa using hpr
      | true =>
        simp only [if_true]
        rcases hs : parse_fixed_symbol input .Sub with e1 | ⟨u, remaining⟩
        · rcases ha : parse_fixed_symbol input .Add with e2 | ⟨u, remaining⟩
          · rcases hd : parse_fixed_symbol input .Div with e3 | ⟨u, remaining⟩
            · have hpr := spr input (by omega)
              simpa [hs, ha, hd] using hpr
            · have c1 := parse_fixed_symbol_consumes _ _ _ hd
              have hpw := spw remaining true (by omega)
              rcases hr : parse_power n remaining true with _ | r
              · rw [hr] at hpw
                simp at hpw
              · rcases r with e4 | ⟨result, remaining2⟩ <;> simp [hs, ha, hd, hr]
          · have c1 := parse_fixed_symbol_consumes _ _ _ ha
            have hpw := spw remaining true (by omega)
            rcases hr : parse_power n remaining true with _ | r
            · rw [hr] at hpw
              simp at hpw
            · rcases r with e4 | ⟨result, remaining2⟩ <;> simp [hs, ha, hr]
        · have c1 := parse_fixed_symbol_consumes _ _ _ hs
          have hpw := spw remaining true (by omega)
          rcases hr : parse_power n remaining true with _ | r
          · rw [hr] at hpw
            simp at hpw
          · rcases r with e4 | ⟨result, remaining2⟩ <;> simp [hs, hr]
    -- parse_apply_cont
    · intro input lhs h
      simp only [parse_apply_cont]
      have hpw := spw input false (by omega)
      rcases hr : parse_power n input false with _ | r
      · rw [hr] at hpw
        simp at hpw
      · rcases r with e | ⟨rhs, input1⟩ <;> simp [hr]
    -- parse_mixed_fraction
    · intro input lhs h
      simp only [parse_mixed_fraction]
      rcases hm : mixed_fraction_lhs lhs with e | ⟨positive, lhs2, other⟩
      · simp [hm]
      · have hpw := spw input false (by omega)
        rcases hr : parse_power n input false with _ | r
        · rw [hr] at hpw
          simp at hpw
        · rcases r with e | ⟨rhs_top, input1⟩
          · simp [hm, hr]
          · have c1 := cpw _ _ _ _ hr
            cases rhs_top <;> simp [hm, hr]
            rename_i v
            cases v <;> simp
            rename_i m
            rcases hd : parse_fixed_symbol input1 .Div with e2 | ⟨u, input2⟩
            · simp [hd]
            · have c2 := parse_fixed_symbol_consumes _ _ _ hd
              have hpw2 := spw input2 false (by omega)
              rcases hr2 : parse_power n input2 false with _ | r2
              · rw [hr2] at hpw2
                simp at hpw2
              · rcases r2 with e3 | ⟨rhs_bottom, input3⟩
                · simp [hd, hr2]
                · cases rhs_bottom <;> simp [hd, hr2]
                  rename_i v2
                  cases v2 <;> simp
    -- parse_multiplication_cont
    · intro input h
      simp only [parse_multiplication_cont]
      rcases hf : parse_fixed_symbol input .Mul with e | ⟨u, input1⟩
      · simp [hf]
      · have c1 := parse_fixed_symbol_consumes _ _ _ hf
        have hpw := spw input1 true (by omega)
        simpa [hf] using hpw
    -- parse_division_cont
    · intro input h
      simp only [parse_division_cont]
      rcases hf : parse_fixed_symbol input .Div with e | ⟨u, input1⟩
      · simp [hf]
      · have c1 := parse_fixed_symbol_consumes _ _ _ hf
        have hpw := spw input1 true (by omega)
        simpa [hf] using hpw
    -- parse_modulo_cont
    · intro input h
      simp only [parse_modulo_cont]
      rcases hf : parse_fixed_symbol input .Mod with e | ⟨u, input1⟩
      · simp [hf]
      · have c1 := parse_fixed_symbol_consumes _ _ _ hf
        have hpw := spw input1 true (by omega)
        simpa [hf] using hpw
    -- parse_multiplicative_loop
    · intro res input h
      simp only [parse_multiplicative_loop]
      have h1 := smc input (by omega)
      rcases hr1 : parse_multiplication_cont n input with _ | r1
      · rw [hr1] at h1
        simp at h1
      · rcases r1 with e1 | ⟨term, remaining⟩
        · have h2 := sdc input (by omega)
          rcases hr2 : parse_division_cont n input with _ | r2
          · rw [hr2] at h2
            simp at h2
          · rcases r2 with e2 | ⟨term, remaining⟩
            · have h3 := smoc input (by omega)
              rcases hr3 : parse_modulo_cont n input with _ | r3
              · rw [hr3] at h3
                simp at h3
              · rcases r3 with e3 | ⟨term, remaining⟩
                · have h4 := smf input res (by omega)
                  rcases hr4 : parse_mixed_fraction n input res with _ | r4
                  · rw [hr4] at h4
                    simp at h4
                  · rcases r4 with e4 | ⟨new_res, remaining⟩
                    · have h5 := sac input res (by omega)
                      rcases hr5 : parse_apply_cont n input res with _ | r5
                      · rw [hr5] at h5
                        simp at h5
                      · rcases r5 with e5 | ⟨new_res, remaining⟩
                        · simp [hr1, hr2, hr3, hr4, hr5]
                        · have c1 := cac _ _ _ _ hr5
                          have hl := sml new_res remaining (by omega)
                          simpa [hr1, hr2, hr3, hr4, hr5] using hl
                    · have c1 := cmf _ _ _ _ hr4
                      have hl := sml new_res remaining (by omega)
                      simpa [hr1, hr2, hr3, hr4] using hl
                · have c1 := cmoc _ _ _ hr3
                  have hl := sml (.Bop .Mod res term) remaining (by omega)
                  simpa [hr1, hr2, hr3] using hl
            · have c1 := cdc _ _ _ hr2
              have hl := sml (.Bop .Div res term) remaining (by omega)
              simpa [hr1, hr2] using hl
        · have c1 := cmc _ _ _ hr1
          have hl := sml (.Bop .Mul res term) remaining (by omega)
          simpa [hr1] using hl
    -- parse_multiplicative
    · intro input h
      simp only [parse_multiplicative]
      have hpw := spw input true (by omega)
      rcases hr : parse_power n input true with _ | r
      · rw [hr] at hpw
        simp at hpw
      · rcases r with e | ⟨res, input1⟩
        · simp [hr]
        · have c1 := cpw _ _ _ _ hr
          have hl := sml res input1 (by omega)
          rcases hr2 : parse_multiplicative_loop n res input1 with _ | ⟨res2, input2⟩
          · rw [hr2] at hl
            simp at hl
          · simp [hr, hr2]
    -- parse_implicit_addition
    · intro input h
      simp only [parse_implicit_addition]
      have hm := sm input (by omega)
      rcases hr : parse_multiplicative n input with _ | r
      · rw [hr] at hm
        simp at hm
      · rcases r with e | ⟨res, input1⟩
        · simp [hr]
        · have c1 := cm _ _ _ hr
          have hi := sia input1 (by omega)
          rcases hr2 : parse_implicit_addition n input1 with _ | r2
          · rw [hr2] at hi
            simp at hi
          · rcases r2 with e2 | ⟨rhs, remaining⟩
            · simp [hr, hr2]
            · cases hc : implicit_addition_combines res rhs <;> simp [hr, hr2, hc]
    -- parse_addition_cont
    · intro input h
      simp only [parse_addition_cont]
      rcases hf : parse_fixed_symbol input .Add with e | ⟨u, input1⟩
      · simp [hf]
      · have c1 := parse_fixed_symbol_consumes _ _ _ hf
        have hi := sia input1 (by omega)
        simpa [hf] using hi
    -- parse_subtraction_cont
    · intro input h
      simp only [parse_subtraction_cont]
      rcases hf : parse_fixed_symbol input .Sub with e | ⟨u, input1⟩
      · simp [hf]
      · have c1 := parse_fixed_symbol_consumes _ _ _ hf
        have hi := sia input1 (by omega)
        simpa [hf] using hi
    -- parse_to_cont
    · intro input h
      simp only [parse_to_cont]
      rcases hf : parse_fixed_symbol input .UnitConversion with e | ⟨u, input1⟩
      · simp [hf]
      · have c1 := parse_fixed_symbol_consumes _ _ _ hf
        have hi := sia input1 (by omega)
        simpa [hf] using hi
    -- parse_additive_loop
    · intro res input h
      simp only [parse_additive_loop]
      have h1 := sadd input (by omega)
      rcases hr1 : parse_addition_cont n input with _ | r1
      · rw [hr1] at h1
        simp at h1
      · rcases r1 with e1 | ⟨term, remaining⟩
        · have h2 := ssub input (by omega)
          rcases hr2 : parse_subtraction_cont n input with _ | r2
          · rw [hr2] at h2
            simp at h2
          · rcases r2 with e2 | ⟨term, remaining⟩
            · have h3 := sto input (by omega)
              rcases hr3 : parse_to_cont n input with _ | r3
              · rw [hr3] at h3
                simp at h3
              · rcases r3 with e3 | ⟨term, remaining⟩
                · simp [hr1, hr2, hr3]
                · have c1 := cto _ _ _ hr3
                  have hl := sal (.As res term) remaining (by omega)
                  simpa [hr1, hr2, hr3] using hl
            · have c1 := csub _ _ _ hr2
              have hl := sal (.Bop .Minus res term) remaining (by omega)
              simpa [hr1, hr2] using hl
        · have c1 := cadd _ _ _ hr1
          have hl := sal (.Bop .Plus res term) remaining (by omega)
          simpa [hr1] using hl
    -- parse_additive
    · intro input h
      simp only [parse_additive]
      have hi := sia input (by omega)
      rcases hr : parse_implicit_addition n input with _ | r
      · rw [hr] at hi
        simp at hi
      · rcases r with e | ⟨res, input1⟩
        · simp [hr]
        · have c1 := cia _ _ _ hr
          have hl := sal res input1 (by omega)
          rcases hr2 : parse_additive_loop n res input1 with _ | ⟨res2, input2⟩
          · rw [hr2] at hl
            simp at hl
          · simp [hr, hr2]
    -- parse_function
    · intro input h
      simp only [parse_function]
      have ha := sa input (by omega)
      rcases hr : parse_additive n input with _ | r
      · rw [hr] at ha
        simp at ha
      · rcases r with e | ⟨lhs, input1⟩
        · simp [hr]
        · have c1 := ca _ _ _ hr
          rcases hf : parse_fixed_symbol input1 .Fn with e2 | ⟨u, remaining⟩
          · simp [hr, hf]
          · have c2 := parse_fixed_symbol_consumes _ _ _ hf
            cases lhs <;> simp [hr, hf]
            rename_i s
            have hfn := sfn remaining (by omega)
            rcases hr2 : parse_function n remaining with _ | r2
            · rw [hr2] at hfn
              simp at hfn
            · rcases r2 with e3 | ⟨rhs, remaining2⟩ <;> simp [hr2]
    -- parse_assignment
    · intro input h
      simp only [parse_assignment]
      have ha := sfn input (by omega)
      rcases hr : parse_function n input with _ | r
      · rw [hr] at ha
        simp at ha
      · rcases r with e | ⟨lhs, input1⟩
        · simp [hr]
        · have c1 := cfn _ _ _ hr
          rcases hf : parse_fixed_symbol input1 .Equals with e2 | ⟨u, remaining⟩
          · simp [hr, hf]
          · have c2 := parse_fixed_symbol_consumes _ _ _ hf
            cases lhs <;> simp [hr, hf]
            rename_i s
            have has := sas remaining (by omega)
            rcases hr2 : parse_assignment n remaining with _ | r2
            · rw [hr2] at has
              simp at has
            · rcases r2 with e3 | ⟨rhs, remaining2⟩ <;> simp [hr2]
    -- skip_semicolons
    · intro input h
      simp only [skip_semicolons]
      rcases hf : parse_fixed_symbol input .Semicolon with e | ⟨u, remaining⟩
      · simp [hf]
      · have c1 := parse_fixed_symbol_consumes _ _ _ hf
        have hs := sss remaining (by omega)
        simpa [hf] using hs
    -- parse_statements_loop
    · intro res input h
      simp only [parse_statements_loop]
      rcases hf : parse_fixed_symbol input .Semicolon with e | ⟨u, remaining⟩
      · simp [hf]
      · have c1 := parse_fixed_symbol_consumes _ _ _ hf
        simp only [hf]
        split
        · have hl := ssl res [] (by simp; omega)
          simpa using hl
        · rename_i tail
          have hl := ssl res (.Symbol .Semicolon :: tail) (by omega)
          simpa using hl
        · have has := sas remaining (by omega)
          rcases hr : parse_assignment n remaining with _ | r
          · rw [hr] at has
            simp at has
          · rcases r with e2 | ⟨rhs, remaining2⟩
            · simp [hr]
            · have c2 := cas _ _ _ hr
              have hl := ssl (.Statements res rhs) remaining2 (by omega)
              simpa [hr] using hl
    -- parse_statements
    · intro input h
      simp only [parse_statements]
      have hs := sss input (by omega)
      rcases hr : skip_semicolons n input with _ | input1
      · rw [hr] at hs
        simp at hs
      · have c1 := css _ _ hr
        rcases input1 with _ | ⟨t, ts⟩
        · simp [hr]
        · have has := sas (t :: ts) (by omega)
          rcases hr2 : parse_assignment n (t :: ts) with _ | r2
          · rw [hr2] at has
            simp at has
          · rcases r2 with e2 | ⟨result, input2⟩
            · simp [hr, hr2]
            · have c2 := cas _ _ _ hr2
              have hl := ssl result input2 (by omega)
              simpa [hr, hr2] using hl


/-- The bottom token readers never produce the internal
`InvalidApplyOperands` signal. -/
theorem parse_token_no_iao : ∀ (input : List Token) (skip : Bool),
    parse_token input skip ≠ .error .InvalidApplyOperands := by
  intro input
  induction input with
  | nil => intro skip h; cases h
  | cons hd tl ih =>
    intro skip h
    match hd, skip with
    | .Whitespace, true => exact ih true h
    | .Whitespace, false => cases h
    | .Num m, b => cases h
    | .Ident i, b => cases h
    | .StringLiteral s, b => cases h
    | .Symbol s, b => cases h

theorem parse_fixed_symbol_no_iao (input : List Token) (s : Symbol) :
    parse_fixed_symbol input s ≠ .error .InvalidApplyOperands := by
  intro h
  unfold parse_fixed_symbol at h
  split at h
  · rename_i e heq
    cases h
    exact parse_token_no_iao input true heq
  · split at h <;> cases h
  · cases h

theorem parse_number_no_iao (input : List Token) :
    parse_number input ≠ .error .InvalidApplyOperands := by
  intro h
  unfold parse_number at h
  split at h
  · rename_i e heq
    cases h
    exact parse_token_no_iao input true heq
  · cases h
  · cases h

theorem mixed_fraction_lhs_no_iao (lhs : Expr) :
    mixed_fraction_lhs lhs ≠ .error .InvalidApplyOperands := by
  intro h
  unfold mixed_fraction_lhs at h
  repeat' split at h
  all_goals cases h

/-- The internal `InvalidApplyOperands` signal raised by `parse_apply_cont`
is always caught by the multiplicative loop: no other parser layer ever
returns it. -/
theorem no_iao_all : ∀ fuel : Nat,
    (∀ input, parse_ident fuel input ≠ some (.error .InvalidApplyOperands)) ∧
    (∀ input, parse_parens fuel input ≠ some (.error .InvalidApplyOperands)) ∧
    (∀ input, parse_backslash_lambda fuel input ≠ some (.error .InvalidApplyOperands)) ∧
    (∀ input, parse_parens_or_literal fuel input ≠ some (.error .InvalidApplyOperands)) ∧
    (∀ input, parse_factorial fuel input ≠ some (.error .InvalidApplyOperands)) ∧
    (∀ input, parse_power_rest fuel input ≠ some (.error .InvalidApplyOperands)) ∧
    (∀ input b, parse_power fuel input b ≠ some (.error .InvalidApplyOperands)) ∧
    (∀ input lhs, parse_mixed_fraction fuel input lhs ≠ some (.error .InvalidApplyOperands)) ∧
    (∀ input, parse_multiplication_cont fuel input ≠ some (.error .InvalidApplyOperands)) ∧
    (∀ input, parse_division_cont fuel input ≠ some (.error .InvalidApplyOperands)) ∧
    (∀ input, parse_modulo_cont fuel input ≠ some (.error .InvalidApplyOperands)) ∧
    (∀ input, parse_multiplicative fuel input ≠ some (.error .InvalidApplyOperands)) ∧
    (∀ input, parse_implicit_addition fuel input ≠ some (.error .InvalidApplyOperands)) ∧
    (∀ input, parse_addition_cont fuel input ≠ some (.error .InvalidApplyOperands)) ∧
    (∀ input, parse_subtraction_cont fuel input ≠ some (.error .InvalidApplyOperands)) ∧
    (∀ input, parse_to_cont fuel input ≠ some (.error .InvalidApplyOperands)) ∧
    (∀ input, parse_additive fuel input ≠ some (.error .InvalidApplyOperands)) ∧
    (∀ input, parse_function fuel input ≠ some (.error .InvalidApplyOperands)) ∧
    (∀ input, parse_assignment fuel input ≠ some (.error .InvalidApplyOperands)) ∧
    (∀ res input, parse_statements_loop fuel res input ≠ some (.error .InvalidApplyOperands)) ∧
    (∀ input, parse_statements fuel input ≠ some (.error .InvalidApplyOperands)) := by
  intro fuel
  induction fuel with
  | zero =>
    refine ⟨?_, ?_, ?_, ?_, ?_, ?_, ?_, ?_, ?_, ?_, ?_, ?_, ?_, ?_, ?_, ?_, ?_,
      ?_, ?_, ?_, ?_⟩ <;> intros <;>
      simp_all [parse_ident, parse_parens, parse_backslash_lambda,
        parse_parens_or_literal, parse_factorial, parse_power_rest, parse_power,
        parse_mixed_fraction, parse_multiplication_cont, parse_division_cont,
        parse_modulo_cont, parse_multiplicative, parse_implicit_addition,
        parse_addition_cont, parse_subtraction_cont, parse_to_cont,
        parse_additive, parse_function, parse_assignment,
        parse_statements_loop, parse_statements]
  | succ n ih =>
    obtain ⟨ni, np, nb, npol, nf, npr, npw, nmf, nmc, ndc, nmoc, nm, nia, nadd,
      nsub, nto, na, nfn, nas, nsl, nst⟩ := ih
    refine ⟨?_, ?_, ?_, ?_, ?_, ?_, ?_, ?_, ?_, ?_, ?_, ?_, ?_, ?_, ?_, ?_, ?_,
      ?_, ?_, ?_, ?_⟩
    -- parse_ident
    · intro input h
      simp only [parse_ident] at h
      split at h
      · rename_i e heq
        simp at h
        subst h
        exact parse_token_no_iao input true heq
      · split at h
        · split at h
          · simp at h
          · rename_i e heq
            simp at h
            subst h
            exact npol _ heq
          · simp at h
        · simp at h
      · simp at h
    -- parse_parens
    · intro input h
      simp only [parse_parens] at h
      split at h
      · rename_i e heq
        simp at h
        subst h
        exact parse_fixed_symbol_no_iao _ _ heq
      · split at h
        · simp at h
        · split at h
          · simp at h
          · rename_i e heq
            simp at h
            subst h
            exact nst _ heq
          · split at h
            · simp at h
            · split at h
              · rename_i e heq
                simp at h
                subst h
                exact parse_fixed_symbol_no_iao _ _ heq
              · simp at h
    -- parse_backslash_lambda
    · intro input h
      simp only [parse_backslash_lambda] at h
      split at h
      · rename_i e heq
        simp at h
        subst h
        exact parse_fixed_symbol_no_iao _ _ heq
      · split at h
        · simp at h
        · rename_i e heq
          simp at h
          subst h
          exact ni _ heq
        · split at h
          · split at h
            · simp at h
            · split at h
              · simp at h
              · rename_i e heq
                simp at h
                subst h
                exact nfn _ heq
              · simp at h
          · simp at h
    -- parse_parens_or_literal
    · intro input h
      simp only [parse_parens_or_literal] at h
      split at h
      · rename_i e heq
        simp at h
        subst h
        exact parse_token_no_iao input true heq
      · split at h
        · simp at h
          exact parse_number_no_iao _ h
        · exact ni _ h
        · simp at h
        · exact np _ h
        · exact nb _ h
        · simp at h
        · simp at h
    -- parse_factorial
    · intro input h
      simp only [parse_factorial] at h
      split at h
      · simp at h
      · rename_i e heq
        simp at h
        subst h
        exact npol _ heq
      · split at h <;> simp at h
    -- parse_power_rest
    · intro input h
      simp only [parse_power_rest] at h
      split at h
      · simp at h
      · rename_i e heq
        simp at h
        subst h
        exact nf _ heq
      · split at h
        · split at h
          · simp at h
          · rename_i e heq
            simp at h
            subst h
            exact npw _ _ heq
          · simp at h
        · simp at h
    -- parse_power
    · intro input b h
      simp only [parse_power] at h
      split at h
      · split at h
        · split at h
          · simp at h
          · rename_i e heq
            simp at h
            subst h
            exact npw _ _ heq
          · simp at h
        · split at h
          · split at h
            · simp at h
            · rename_i e heq
              simp at h
              subst h
              exact npw _ _ heq
            · simp at h
          · split at h
            · split at h
              · simp at h
              · rename_i e heq
                simp at h
                subst h
                exact npw _ _ heq
              · simp at h
            · exact npr _ h
      · exact npr _ h
    -- parse_mixed_fraction
    · intro input lhs h
      simp only [parse_mixed_fraction] at h
      split at h
      · rename_i e heq
        simp at h
        subst h
        exact mixed_fraction_lhs_no_iao _ heq
      · split at h
        · simp at h
        · rename_i e heq
          simp at h
          subst h
          exact npw _ _ heq
        · split at h
          · split at h
            · rename_i e heq
              simp at h
              subst h
              exact parse_fixed_symbol_no_iao _ _ heq
            · split at h
              · simp at h
              · rename_i e heq
                simp at h
                subst h
                exact npw _ _ heq
              · split at h
                · repeat' split at h
                  all_goals simp at h
                · simp at h
          · simp at h
    -- parse_multiplication_cont
    · intro input h
      simp only [parse_multiplication_cont] at h
      split at h
      · rename_i e heq
        simp at h
        subst h
        exact parse_fixed_symbol_no_iao _ _ heq
      · exact npw _ _ h
    -- parse_division_cont
    · intro input h
      simp only [parse_division_cont] at h
      split at h
      · rename_i e heq
        simp at h
        subst h
        exact parse_fixed_symbol_no_iao _ _ heq
      · exact npw _ _ h
    -- parse_modulo_cont
    · intro input h
      simp only [parse_modulo_cont] at h
      split at h
      · rename_i e heq
        simp at h
        subst h
        exact parse_fixed_symbol_no_iao _ _ heq
      · exact npw _ _ h
    -- parse_multiplicative
    · intro input h
      simp only [parse_multiplicative] at h
      split at h
      · simp at h
      · rename_i e heq
        simp at h
        subst h
        exact npw _ _ heq
      · split at h <;> simp at h
    -- parse_implicit_addition
    · intro input h
      simp only [parse_implicit_addition] at h
      split at h
      · simp at h
      · rename_i e heq
        simp at h
        subst h
        exact nm _ heq
      · split at h
        · simp at h
        · simp at h
        · split at h <;> simp at h
    -- parse_addition_cont
    · intro input h
      simp only [parse_addition_cont] at h
      split at h
      · rename_i e heq
        simp at h
        subst h
        exact parse_fixed_symbol_no_iao _ _ heq
      · exact nia _ h
    -- parse_subtraction_cont
    · intro input h
      simp only [parse_subtraction_cont] at h
      split at h
      · rename_i e heq
        simp at h
        subst h
        exact parse_fixed_symbol_no_iao _ _ heq
      · exact nia _ h
    -- parse_to_cont
    · intro input h
      simp only [parse_to_cont] at h
      split at h
      · rename_i e heq
        simp at h
        subst h
        exact parse_fixed_symbol_no_iao _ _ heq
      · exact nia _ h
    -- parse_additive
    · intro input h
      simp only [parse_additive] at h
      split at h
      · simp at h
      · rename_i e heq
        simp at h
        subst h
        exact nia _ heq
      · split at h <;> simp at h
    -- parse_function
    · intro input h
      simp only [parse_function] at h
      split at h
      · simp at h
      · rename_i e heq
        simp at h
        subst h
        exact na _ heq
      · split at h
        · split at h
          · split at h
            · simp at h
            · rename_i e heq
              simp at h
              subst h
              exact nfn _ heq
            · simp at h
          · simp at h
        · simp at h
    -- parse_assignment
    · intro input h
      simp only [parse_assignment] at h
      split at h
      · simp at h
      · rename_i e heq
        simp at h
        subst h
        exact nfn _ heq
      · split at h
        · split at h
          · split at h
            · simp at h
            · rename_i e heq
              simp at h
              subst h
              exact nas _ heq
            · simp at h
          · simp at h
        · simp at h
    -- parse_statements_loop
    · intro res input h
      simp only [parse_statements_loop] at h
      split at h
      · simp at h
      · split at h
        · exact nsl _ _ h
        · exact nsl _ _ h
        · split at h
          · simp at h
          · rename_i e heq
            simp at h
            subst h
            exact nas _ heq
          · exact nsl _ _ h
    -- parse_statements
    · intro input h
      simp only [parse_statements] at h
      split at h
      · simp at h
      · split at h
        · simp at h
        · split at h
          · simp at h
          · rename_i e heq
            simp at h
            subst h
            exact nas _ heq
          · exact nsl _ _ h

/-! ### Claim theorems -/

/-- Claim C1, counterexample.  For the token sequence of `2 x^2` (left
operand a bare numeric literal, right operand a power whose base is the
identifier `x`), the implicit-apply continuation produces a generic
`Apply` node — not the `ApplyMul` node the claim asserts — both at the
`parse_apply_cont` level and through the full `parse_tokens` entry
point. -/
theorem c1_counterexample :
    parse_apply_cont 20 [.Ident ⟨"x", false⟩, .Symbol .Pow, .Num 2]
        (.Literal (.Num 2)) =
      some (.ok (.Apply (.Literal (.Num 2))
        (.Bop .Pow (.Ident ⟨"x", false⟩) (.Literal (.Num 2))), [])) ∧
    parse_tokens [.Num 2, .Whitespace, .Ident ⟨"x", false⟩, .Symbol .Pow, .Num 2] =
      .ok (.Apply (.Literal (.Num 2))
        (.Bop .Pow (.Ident ⟨"x", false⟩) (.Literal (.Num 2)))) ∧
    (Expr.Apply (.Literal (.Num 2))
        (.Bop .Pow (.Ident ⟨"x", false⟩) (.Literal (.Num 2))) ≠
      Expr.ApplyMul (.Literal (.Num 2))
        (.Bop .Pow (.Ident ⟨"x", false⟩) (.Literal (.Num 2)))) := by
  refine ⟨rfl, rfl, ?_⟩
  decide

/-- Claim C1, amended.  In the implicit-apply continuation, when the left
operand is a bare numeric literal or an existing `ApplyMul` and the right
operand parsed at power precedence is `Pow(base, _)` whose base is not a
bare numeric literal, the Pow classification arm is taken and its non-fail
branch yields the generic application `Apply(lhs, rhs)` (not
`ApplyMul`). -/
theorem c1_apply_pow_nonnumeric_base (fuel : Nat) (input : List Token)
    (lhs base e rhs : Expr) (rem : List Token)
    (hpow : parse_power fuel input false = some (.ok (rhs, rem)))
    (hshape : rhs = .Bop .Pow base e)
    (hbase : ∀ n, base ≠ .Literal (.Num n))
    (hlhs : (∃ n, lhs = .Literal (.Num n)) ∨ (∃ a b, lhs = .ApplyMul a b)) :
    parse_apply_cont (fuel + 1) input lhs = some (.ok (.Apply lhs rhs, rem)) := by
  subst hshape
  rcases hlhs with ⟨n, rfl⟩ | ⟨a, b, rfl⟩ <;>
    simp only [parse_apply_cont, hpow]

/-- Claim C1, witness for the amended theorem at the tokens of `x^2` with
left operand the literal `2`. -/
theorem c1_witness :
    parse_power 19 [.Ident ⟨"x", false⟩, .Symbol .Pow, .Num 2] false =
      some (.ok (.Bop .Pow (.Ident ⟨"x", false⟩) (.Literal (.Num 2)), [])) ∧
    parse_apply_cont 20 [.Ident ⟨"x", false⟩, .Symbol .Pow, .Num 2]
        (.Literal (.Num 2)) =
      some (.ok (.Apply (.Literal (.Num 2))
        (.Bop .Pow (.Ident ⟨"x", false⟩) (.Literal (.Num 2))), [])) := by
  refine ⟨rfl, ?_⟩
  exact c1_apply_pow_nonnumeric_base 19 [.Ident ⟨"x", false⟩, .Symbol .Pow, .Num 2]
    (.Literal (.Num 2)) (.Ident ⟨"x", false⟩) (.Literal (.Num 2))
    (.Bop .Pow (.Ident ⟨"x", false⟩) (.Literal (.Num 2))) [] rfl rfl
    (by intro n h; cases h) (.inl ⟨2, rfl⟩)

/-- Claim C3.  The mixed-fraction continuation: with a bare numeric
literal left operand and tokens `numerator / denominator` (numerator and
denominator bare numeric literals at power precedence) it produces
`Plus(L, Div(numerator, denominator))`; an ineligible left operand or a
non-numeric denominator fails the whole continuation with an error (no
partial result), and the multiplicative layer then falls through to the
next alternative, as in `2 meters`; the spec example `2 3/4` parses to
`Plus(2, Div(3, 4))`. -/
theorem c3_mixed_fraction :
    (∀ (L n d fuel : Nat),
      parse_mixed_fraction (fuel + 9) [.Num n, .Symbol .Div, .Num d]
          (.Literal (.Num L)) =
        some (.ok (.Bop .Plus (.Literal (.Num L))
          (.Bop .Div (.Literal (.Num n)) (.Literal (.Num d))), []))) ∧
    (∀ (fuel : Nat) (input : List Token) (i : Identifier),
      parse_mixed_fraction (fuel + 1) input (.Ident i) =
        some (.error .InvalidMixedFraction)) ∧
    (∀ (L n fuel : Nat) (i : Identifier),
      parse_mixed_fraction (fuel + 9) [.Num n, .Symbol .Div, .Ident i]
          (.Literal (.Num L)) =
        some (.error .InvalidMixedFraction)) ∧
    parse_tokens [.Num 2, .Whitespace, .Num 3, .Symbol .Div, .Num 4] =
      .ok (.Bop .Plus (.Literal (.Num 2))
        (.Bop .Div (.Literal (.Num 3)) (.Literal (.Num 4)))) ∧
    parse_tokens [.Num 2, .Whitespace, .Ident ⟨"meters", false⟩] =
      .ok (.ApplyMul (.Literal (.Num 2)) (.Ident ⟨"meters", false⟩)) := by
  refine ⟨?_, ?_, ?_, rfl, rfl⟩
  · intro L n d fuel
    rfl
  · intro fuel input i
    rfl
  · intro L n fuel i
    rfl

/-- Claim C4, counterexample.  A `Whitespace` token between the backslash
and the lambda parameter identifier does not make the lambda parse fail:
the tokens of `\ x.x` (with the whitespace) parse successfully, to the
same tree as the tokens of `\x.x` (without it). -/
theorem c4_counterexample :
    parse_tokens [.Symbol .Backslash, .Whitespace, .Ident ⟨"x", false⟩,
        .Symbol .Dot, .Ident ⟨"x", false⟩] =
      .ok (.Fn ⟨"x", false⟩ (.Ident ⟨"x", false⟩)) ∧
    parse_tokens [.Symbol .Backslash, .Ident ⟨"x", false⟩,
        .Symbol .Dot, .Ident ⟨"x", false⟩] =
      .ok (.Fn ⟨"x", false⟩ (.Ident ⟨"x", false⟩)) := by
  exact ⟨rfl, rfl⟩

/-- Claim C4, amended.  A `Whitespace` token immediately between the
backslash and the lambda parameter identifier is transparent: the
parameter is read through `parse_ident`, which skips leading whitespace,
so `parse_backslash_lambda` behaves exactly as if the whitespace token
were absent (and fails only for the reasons the whitespace-free parse
fails). -/
theorem c4_lambda_whitespace_transparent :
    (∀ (fuel : Nat) (rest : List Token),
      parse_backslash_lambda fuel (.Symbol .Backslash :: .Whitespace :: rest) =
        parse_backslash_lambda fuel (.Symbol .Backslash :: rest)) ∧
    parse_tokens [.Symbol .Backslash, .Whitespace, .Ident ⟨"x", false⟩,
        .Symbol .Dot, .Ident ⟨"x", false⟩] =
      .ok (.Fn ⟨"x", false⟩ (.Ident ⟨"x", false⟩)) := by
  refine ⟨?_, rfl⟩
  intro fuel rest
  cases fuel with
  | zero => rfl
  | succ n =>
    exact congrArg
      (fun r : Option (Except ParseError (Expr × List Token)) =>
        (match r with
        | none => none
        | some (.error e) => some (.error e)
        | some (.ok (lhs, input2)) =>
          match lhs with
          | .Ident ident =>
            match parse_fixed_symbol input2 .Dot with
            | .error e => some (.error (.ExpectedDotInLambda e))
            | .ok ((), input3) =>
              match parse_function n input3 with
              | none => none
              | some (.error e) => some (.error e)
              | some (.ok (rhs, input4)) => some (.ok (.Fn ident rhs, input4))
          | _ => some (.error .ExpectedIdentifier) :
          Option (Except ParseError (Expr × List Token))))
      (parse_ident_skips_whitespace n rest)

/-- Claim C5, counterexample.  The statement layer does not tolerate a
`Whitespace` token after the final semicolon: input consisting of a
semicolon followed by whitespace is an `ExpectedAToken` error rather than
the unit literal, and a trailing `;` followed by whitespace after a real
statement is likewise an error. -/
theorem c5_counterexample :
    parse_tokens [.Symbol .Semicolon, .Whitespace] = .error .ExpectedAToken ∧
    parse_tokens [.Num 1, .Symbol .Semicolon, .Whitespace] =
      .error .ExpectedAToken := by
  exact ⟨rfl, rfl⟩

/-- Claim C5, amended.  The statement layer silently skips leading,
trailing, and repeated semicolon tokens, with whitespace tolerated between
semicolons (but not after the last one: whitespace-only residual input in
statement position is an `ExpectedAToken` error): empty input and
semicolon-only input yield the unit literal, `1;;2;` yields
`Statements(1, 2)`, and a single trailing `;` directly after the last real
statement introduces no empty statement and no error. -/
theorem c5_semicolon_handling :
    parse_tokens [] = .ok (.Literal .Unit) ∧
    parse_tokens [.Symbol .Semicolon, .Symbol .Semicolon, .Symbol .Semicolon] =
      .ok (.Literal .Unit) ∧
    parse_tokens [.Symbol .Semicolon, .Whitespace, .Symbol .Semicolon] =
      .ok (.Literal .Unit) ∧
    parse_tokens [.Num 1, .Symbol .Semicolon, .Symbol .Semicolon, .Num 2,
        .Symbol .Semicolon] =
      .ok (.Statements (.Literal (.Num 1)) (.Literal (.Num 2))) ∧
    parse_tokens [.Num 1, .Symbol .Semicolon] = .ok (.Literal (.Num 1)) ∧
    parse_tokens [.Symbol .Semicolon, .Whitespace] = .error .ExpectedAToken := by
  exact ⟨rfl, rfl, rfl, rfl, rfl, rfl⟩

/-- Claim C6.  The implicit-addition layer combines a multiplicative term
with an immediately following implicit-addition term as
`Bop(ImplicitPlus, left, right)` exactly when the left term is an
`ApplyMul` and the right term is an `ApplyMul`, an `ImplicitPlus`, or a
bare literal (`implicit_addition_combines`), and otherwise keeps the left
term alone; the tokens of `6 feet 1 inch` parse to
`ImplicitPlus(ApplyMul(6, feet), ApplyMul(1, inch))`. -/
theorem c6_implicit_addition (fuel : Nat) (input input1 remaining : List Token)
    (res rhs : Expr)
    (hmul : parse_multiplicative fuel input = some (.ok (res, input1)))
    (himp : parse_implicit_addition fuel input1 = some (.ok (rhs, remaining))) :
    parse_implicit_addition (fuel + 1) input =
      some (.ok (if implicit_addition_combines res rhs then
        (.Bop .ImplicitPlus res rhs, remaining) else (res, input1))) := by
  simp only [parse_implicit_addition, hmul, himp]
  by_cases h : implicit_addition_combines res rhs <;> simp [h]

/-- Claim C6, witness: the theorem applied at the tokens of
`6 feet 1 inch`, where the two ApplyMul terms combine. -/
theorem c6_witness :
    parse_multiplicative 50 [.Num 6, .Whitespace, .Ident ⟨"feet", false⟩,
        .Whitespace, .Num 1, .Whitespace, .Ident ⟨"inch", false⟩] =
      some (.ok (.ApplyMul (.Literal (.Num 6)) (.Ident ⟨"feet", false⟩),
        [.Whitespace, .Num 1, .Whitespace, .Ident ⟨"inch", false⟩])) ∧
    parse_implicit_addition 50 [.Whitespace, .Num 1, .Whitespace,
        .Ident ⟨"inch", false⟩] =
      some (.ok (.ApplyMul (.Literal (.Num 1)) (.Ident ⟨"inch", false⟩), [])) ∧
    parse_implicit_addition 51 [.Num 6, .Whitespace, .Ident ⟨"feet", false⟩,
        .Whitespace, .Num 1, .Whitespace, .Ident ⟨"inch", false⟩] =
      some (.ok (.Bop .ImplicitPlus
        (.ApplyMul (.Literal (.Num 6)) (.Ident ⟨"feet", false⟩))
        (.ApplyMul (.Literal (.Num 1)) (.Ident ⟨"inch", false⟩)), [])) := by
  refine ⟨rfl, rfl, ?_⟩
  exact c6_implicit_addition 50
    [.Num 6, .Whitespace, .Ident ⟨"feet", false⟩, .Whitespace, .Num 1,
      .Whitespace, .Ident ⟨"inch", false⟩]
    [.Whitespace, .Num 1, .Whitespace, .Ident ⟨"inch", false⟩] []
    (.ApplyMul (.Literal (.Num 6)) (.Ident ⟨"feet", false⟩))
    (.ApplyMul (.Literal (.Num 1)) (.Ident ⟨"inch", false⟩)) rfl rfl

/-- Claim C7.  A leading `-`, `+`, or `/` parsed at the power layer wraps
the result of recursively parsing the entire power expression that follows
in `UnaryMinus`, `UnaryPlus`, or `UnaryDiv` respectively; in particular
the tokens of `-2^2` parse to `UnaryMinus(Pow(2, 2))`. -/
theorem c7_unary_wraps_power :
    (∀ (fuel : Nat) (input : List Token),
      parse_power (fuel + 1) (.Symbol .Sub :: input) true =
        match parse_power fuel input true with
        | none => none
        | some (.error e) => some (.error e)
        | some (.ok (r, rem)) => some (.ok (.UnaryMinus r, rem))) ∧
    (∀ (fuel : Nat) (input : List Token),
      parse_power (fuel + 1) (.Symbol .Add :: input) true =
        match parse_power fuel input true with
        | none => none
        | some (.error e) => some (.error e)
        | some (.ok (r, rem)) => some (.ok (.UnaryPlus r, rem))) ∧
    (∀ (fuel : Nat) (input : List Token),
      parse_power (fuel + 1) (.Symbol .Div :: input) true =
        match parse_power fuel input true with
        | none => none
        | some (.error e) => some (.error e)
        | some (.ok (r, rem)) => some (.ok (.UnaryDiv r, rem))) ∧
    parse_tokens [.Symbol .Sub, .Num 2, .Symbol .Pow, .Num 2] =
      .ok (.UnaryMinus (.Bop .Pow (.Literal (.Num 2)) (.Literal (.Num 2)))) := by
  refine ⟨?_, ?_, ?_, rfl⟩ <;>
  · intro fuel input
    rcases h : parse_power fuel input true with _ | r
    · simp [parse_power, parse_fixed_symbol, parse_token, h]
    · rcases r with e | ⟨r, rem⟩ <;>
        simp [parse_power, parse_fixed_symbol, parse_token, h]

/-- Claim C8.  A parenthesized sub-expression whose inner expression
consumes all remaining tokens tolerates the missing closing parenthesis;
when tokens remain after the inner expression, a close-paren is required
(its absence is an error); concretely, `(1+2` parses to
`Parens(Plus(1, 2))` with no error while `(1 2` is an error. -/
theorem c8_paren_tolerance (fuel : Nat) (input1 rem : List Token) (inner : Expr)
    (hnotclose : ∀ r, parse_fixed_symbol input1 .CloseParens ≠ .ok ((), r))
    (hinner : parse_statements fuel input1 = some (.ok (inner, rem))) :
    parse_parens (fuel + 1) (.Symbol .OpenParens :: input1) =
      (match rem with
        | [] => some (.ok (.Parens inner, []))
        | _ :: _ =>
          match parse_fixed_symbol rem .CloseParens with
          | .error e => some (.error e)
          | .ok ((), remaining) => some (.ok (.Parens inner, remaining))) := by
  have hopen : parse_fixed_symbol (.Symbol .OpenParens :: input1) .OpenParens =
      .ok ((), input1) := rfl
  rcases h : parse_fixed_symbol input1 .CloseParens with e | ⟨⟨⟩, r⟩
  · rcases rem with _ | ⟨t, ts⟩
    · simp only [parse_parens, hopen, h, hinner]
    · rcases hc : parse_fixed_symbol (t :: ts) .CloseParens with e2 | ⟨⟨⟩, r2⟩ <;>
        simp only [parse_parens, hopen, h, hinner, hc]
  · exact absurd h (hnotclose r)

/-- Claim C8, witness: the theorem applied at the tokens of `1+2` with no
closing parenthesis, together with the concrete behaviour of the full
parses of `(1+2` (tolerated) and `(1 2` (close-paren required). -/
theorem c8_witness :
    ((∀ r, parse_fixed_symbol [.Num 1, .Symbol .Add, .Num 2] .CloseParens ≠
        .ok ((), r)) ∧
      parse_statements 50 [.Num 1, .Symbol .Add, .Num 2] =
        some (.ok (.Bop .Plus (.Literal (.Num 1)) (.Literal (.Num 2)), [])) ∧
      parse_parens 51 [.Symbol .OpenParens, .Num 1, .Symbol .Add, .Num 2] =
        some (.ok (.Parens (.Bop .Plus (.Literal (.Num 1)) (.Literal (.Num 2))),
          []))) ∧
    parse_tokens [.Symbol .OpenParens, .Num 1, .Symbol .Add, .Num 2] =
      .ok (.Parens (.Bop .Plus (.Literal (.Num 1)) (.Literal (.Num 2)))) ∧
    parse_tokens [.Symbol .OpenParens, .Num 1, .Whitespace, .Num 2] =
      .error (.FoundInvalidTokenWhileExpecting .CloseParens) := by
  refine ⟨⟨?_, rfl, ?_⟩, rfl, rfl⟩
  · intro r h
    cases h
  · exact c8_paren_tolerance 50 [.Num 1, .Symbol .Add, .Num 2] []
      (.Bop .Plus (.Literal (.Num 1)) (.Literal (.Num 2)))
      (by intro r h; cases h) rfl

/-- Claim C10.  A trailing `Whitespace` token at the end of the input is
never consumed, so the top-level full-consumption check of `parse_tokens`
fails with `UnexpectedInput` even though the preceding tokens form a
complete valid expression: `[Num 1, Whitespace]` is an error while
`[Num 1]` parses to the literal. -/
theorem c10_trailing_whitespace :
    parse_tokens [.Num 1, .Whitespace] = .error .UnexpectedInput ∧
    parse_tokens [.Num 1] = .ok (.Literal (.Num 1)) := by
  exact ⟨rfl, rfl⟩

/-- Claim C2.  `parse_tokens` never returns the internal
`InvalidApplyOperands` error: every occurrence of that signal, raised only
inside the implicit-apply continuation, is caught by the multiplicative
alternative loop and never propagates to the caller. -/
theorem c2_no_invalid_apply_operands (input : List Token) :
    parse_tokens input ≠ .error .InvalidApplyOperands := by
  intro h
  simp only [parse_tokens, parse_expression] at h
  split at h
  · cases h
  · rename_i e heq
    cases h
    exact (no_iao_all (parse_fuel input)).2.2.2.2.2.2.2.2.2.2.2.2.2.2.2.2.2.2.2.2
      input heq
  · split at h <;> cases h

/-- Claim C2, witness: applied to the tokens of `2 3`, a sequence whose
parse internally raises and catches the signal before failing at the top
level with `UnexpectedInput`. -/
theorem c2_witness :
    parse_tokens [.Num 2, .Whitespace, .Num 3] ≠ .error .InvalidApplyOperands :=
  c2_no_invalid_apply_operands [.Num 2, .Whitespace, .Num 3]

/-- Claim C9.  `parse_tokens` is total at its fuel bound: for every finite
token sequence the parse reaches a result (an expression or a structured
error) without exhausting the fuel, and a successful result implies the
statement layer consumed every token. -/
theorem c9_parse_tokens_total (input : List Token) :
    (∃ r, parse_expression (parse_fuel input) input = some r) ∧
    (∀ e, parse_tokens input = .ok e →
      parse_expression (parse_fuel input) input = some (.ok (e, []))) := by
  constructor
  · have hs := (suff_all (parse_fuel input)).2.2.2.2.2.2.2.2.2.2.2.2.2.2.2.2.2.2.2.2.2.2.2.2.2
      input (by simp [parse_fuel])
    exact Option.isSome_iff_exists.mp hs
  · intro e he
    simp only [parse_tokens, parse_expression] at he ⊢
    split at he
    · cases he
    · cases he
    · rename_i res remaining heq
      split at he
      · rename_i hemp
        cases he
        simp only [List.isEmpty_iff] at hemp
        subst hemp
        exact heq
      · cases he

/-- Claim C9, witness: the totality statement instantiated at the single
token `1`, whose parse succeeds consuming everything. -/
theorem c9_witness :
    parse_tokens [Token.Num 1] = .ok (.Literal (.Num 1)) ∧
    parse_expression (parse_fuel [Token.Num 1]) [Token.Num 1] =
      some (.ok (.Literal (.Num 1), [])) :=
  ⟨rfl, (c9_parse_tokens_total [Token.Num 1]).2 (.Literal (.Num 1)) rfl⟩

end Fend
